import Mathlib

/-!
# Threshold BLS over BLS12-381: a shallow embedding of `internal/crypto`

The Go package `internal/crypto` (files `types.go`, `bls.go`) is embedded function by
function.  Every call that leaves the repository goes to one of two libraries:

* `herumi/bls-eth-go-binary` (secret keys, shares, partial signatures, recovery, the first
  verification verdict, uncompressed serialisation);
* `consensys/gnark-crypto` (field element decoding, on-curve test, hash to G2, pairing check).

Scalar arithmetic of the first library is modelled concretely in `ZMod scalarOrder`; its two
groups are arbitrary modules over the scalar ring and the operations that depend on the curve
are fields of `Herumi`.  The curve-dependent operations of the second library are fields of
`Gnark`; its byte-level decoding is concrete.
-/

set_option linter.unusedSectionVars false

namespace ThresholdBLS

/-! ## Constants of BLS12-381 -/

/-- Order of the scalar field `Fr` (the order of G1 and G2). -/
def scalarOrder : ℕ := 0x73eda753299d7d483339d80809a1d80553bda402fffe5bfeffffffff00000001

/-- Modulus of the base field `Fp` (`fp.Modulus()` in gnark-crypto). -/
def fieldModulus : ℕ :=
  0x1a0111ea397fe69a4b1ba7b6434bacd764774b84f38512bf6730d2a0f6b0f6241eabfffeb153ffffb9feffffffffaaab

/-- Scalars: herumi `SecretKey` and `ID` values both hold one element of `Fr`. -/
abbrev Fr : Type := ZMod scalarOrder

/-- Bound of the Go type `int` on the 64-bit targets the binary library supports. -/
def maxInt : Int := 2 ^ 63 - 1

/-- Largest size in bytes that `make` accepts on those targets (`maxAlloc` of the Go runtime,
48 address bits); beyond it `runtime.makeslice` panics. -/
def maxAlloc : Int := 2 ^ 48

/-- Square-and-multiply: `acc * b ^ e` modulo `m`, for `e` below `2 ^ fuel`. -/
def powModAux : ℕ → ℕ → ℕ → ℕ → ℕ → ℕ
  | 0, _, _, _, acc => acc
  | fuel + 1, b, e, m, acc =>
    if e = 0 then acc
    else powModAux fuel (b * b % m) (e / 2) m (if e % 2 = 1 then acc * b % m else acc)

/-- The prime factors of `scalarOrder - 1`, with multiplicity. -/
def scalarOrderPredFactors : List ℕ :=
  List.replicate 32 2 ++ [3, 11, 19, 10177, 125527, 859267, 906349, 906349, 2508409, 2529403,
    52437899, 254760293, 254760293]

/-! ## Results of Go calls -/

/-- Outcome of a Go call: a value, a returned `error`, or a run-time panic. -/
inductive Outcome (α : Type) where
  | ok (a : α)
  | error (msg : String)
  | panic (msg : String)
  deriving Repr, DecidableEq

namespace Outcome

/-- Sequencing: an error or a panic ends the computation. -/
def bind {α β : Type} (x : Outcome α) (f : α → Outcome β) : Outcome β :=
  match x with
  | ok a => f a
  | error msg => error msg
  | panic msg => panic msg

instance : Monad Outcome where
  pure := Outcome.ok
  bind := Outcome.bind

/-- Rewrites the message of a returned error, as `fmt.Errorf("...: %v", err)` does. -/
def wrapError {α : Type} (pre : String) : Outcome α → Outcome α
  | error msg => error (pre ++ msg)
  | o => o

end Outcome

/-! ## The herumi library -/

/-- Curve-dependent operations of herumi/bls-eth-go-binary in ETH draft-07 mode, over its
public-key group `G1` and signature group `G2`. -/
structure Herumi (G1 G2 : Type) where
  /-- Base point used by `SecretKey.GetPublicKey`. -/
  generator : G1
  /-- Hash-and-map used by `SecretKey.SignByte` and `Sign.VerifyByte`. -/
  hashToCurve : List UInt8 → G2
  /-- Verdict of `sig.VerifyByte(pub, msg)`. -/
  verifyByte : G2 → G1 → List UInt8 → Bool
  /-- Bytes of `PublicKey.SerializeUncompressed`. -/
  serializePublicKey : G1 → List UInt8
  /-- Bytes of `Sign.SerializeUncompressed`. -/
  serializeSign : G2 → List UInt8

/-- `SecretKey.SetByCSPRNG` on the scalar `raw` that the entropy source yields: the key is
`raw`, and the call panics when it is zero. -/
def setByCSPRNG (raw : Fr) : Outcome Fr :=
  if raw = 0 then .panic "err blsSecretKeySetByCSPRNG zero" else .ok raw

/-- The loop `for i := 1; i < k; i++ { msk[i].SetByCSPRNG() }` of `GetMasterSecretKey`, run
over the listed values of `i`; the `i`-th key reads the draw `rng i`. -/
def drawKeys (rng : ℕ → Fr) : List ℕ → Outcome (List Fr)
  | [] => .ok []
  | i :: rest =>
    match setByCSPRNG (rng i) with
    | .panic m => .panic m
    | .error m => .error m
    | .ok key =>
      match drawKeys rng rest with
      | .panic m => .panic m
      | .error m => .error m
      | .ok keys => .ok (key :: keys)

/-- `SecretKey.GetMasterSecretKey(k)`: `make([]SecretKey, k)` with keys of 32 bytes, then
`msk[0] = *sec`, then `k - 1` fresh keys. -/
def getMasterSecretKey (sec : Fr) (k : Int) (rng : ℕ → Fr) : Outcome (List Fr) :=
  if k < 0 ∨ 32 * k > maxAlloc then .panic "makeslice: len out of range"
  else if k = 0 then .panic "index out of range [0] with length 0"
  else
    match drawKeys rng ((List.range (k.toNat - 1)).map fun i => i + 1) with
    | .panic m => .panic m
    | .error m => .error m
    | .ok keys => .ok (sec :: keys)

/-- `ID.SetDecString(fmt.Sprintf("%d", v))`: the decimal numeral is read into `Fr`; a
magnitude that is not below the order is refused, a minus sign negates. -/
def idSetDecString (v : Int) : Outcome Fr :=
  if v.natAbs < scalarOrder then .ok (v : Fr) else .error "err mclBnFr_setStr"

/-- mcl `evaluatePolynomial`: Horner evaluation from the top coefficient down. -/
def evaluatePolynomial : List Fr → Fr → Fr
  | [], _ => 0
  | [c], _ => c
  | c :: d :: cs, x => evaluatePolynomial (d :: cs) x * x + c

/-- `SecretKey.Set(msk, id)`: the share of `id`; an empty slice is refused. -/
def secretKeySet (msk : List Fr) (id : Fr) : Outcome Fr :=
  match msk with
  | [] => .error "Set zero mask"
  | c :: cs => .ok (evaluatePolynomial (c :: cs) id)

section Groups

variable {G1 G2 : Type} [AddCommGroup G1] [Module Fr G1] [AddCommGroup G2] [Module Fr G2]

/-- `SecretKey.GetPublicKey`. -/
def getPublicKey (H : Herumi G1 G2) (sk : Fr) : G1 := sk • H.generator

/-- `SecretKey.SignByte`. -/
def signByte (H : Herumi G1 G2) (sk : Fr) (msg : List UInt8) : G2 := sk • H.hashToCurve msg

/-- Denominator of the `i`-th coefficient in mcl `LagrangeInterpolation`:
`b = S[i] * prod_{j != i} (S[j] - S[i])`, or `none` when some difference is zero. -/
def lagrangeDenominator (S : List Fr) (i : ℕ) : Option Fr :=
  (List.range S.length).foldl
    (fun acc j =>
      match acc with
      | none => none
      | some b =>
        if j ≠ i then
          let v := S.getD j 0 - S.getD i 0
          if v = 0 then none else some (b * v)
        else some b)
    (some (S.getD i 0))

/-- Main loop of mcl `LagrangeInterpolation`: `r += vec[i] * (a / b_i)` for `i = 0 .. k-1`,
given up at the first zero difference. -/
def lagrangeLoop (S : List Fr) (vec : List G2) (a : Fr) : Option G2 :=
  (List.range S.length).foldl
    (fun acc i =>
      match acc with
      | none => none
      | some r =>
        match lagrangeDenominator S i with
        | none => none
        | some b => some (r + (a * b⁻¹) • vec.getD i 0))
    (some 0)

/-- mcl `LagrangeInterpolation(out, S, vec, k)` with `k = S.length`. -/
def lagrangeInterpolation (S : List Fr) (vec : List G2) : Option G2 :=
  if S.length = 0 then none
  else if S.length = 1 then some (vec.getD 0 0)
  else
    let a := S.prod
    if a = 0 then none else lagrangeLoop S vec a

/-- `Sign.Recover(sigVec, idVec)`. -/
def recover (sigVec : List G2) (idVec : List Fr) : Outcome G2 :=
  if sigVec.length = 0 then .error "Recover zero sigVec"
  else if sigVec.length ≠ idVec.length then .error "err Sign.Recover bad size"
  else
    match lagrangeInterpolation idVec sigVec with
    | none => .error "err blsSignatureRecover"
    | some s => .ok s

end Groups

/-! ## `types.go` -/

/-- `Node`: a participant of the scheme. -/
structure Node (G1 : Type) where
  Index : Int
  PrivateKey : Fr
  PublicKey : G1

/-- `SchemeParams`. -/
structure SchemeParams where
  Threshold : Int
  TotalNodes : Int
  deriving DecidableEq, Repr

/-- `SignatureScheme`. -/
structure SignatureScheme (G1 : Type) where
  Params : SchemeParams
  Nodes : List (Node G1)
  GroupPublicKey : G1
  MasterSecretKeys : List Fr

/-- `VerificationResult`. -/
structure VerificationResult where
  HerumiVerification : Bool
  ConsensysVerification : Bool
  IsValid : Bool
  deriving DecidableEq, Repr

/-! ## `bls.go`: key generation and signing -/

section Scheme

variable {G1 G2 : Type} [AddCommGroup G1] [Module Fr G1] [AddCommGroup G2] [Module Fr G2]

/-- Body of the loop `for i := 0; i < totalNodes; i++` of `NewSignatureScheme`, run over the
listed values of `i`; the first failure ends it. -/
def buildNodes (H : Herumi G1 G2) (masterSecretKeys : List Fr) : List ℕ → Outcome (List (Node G1))
  | [] => .ok []
  | i :: rest =>
    match idSetDecString ((i : Int) + 1) with
    | .panic m => .panic m
    | .error m => .error ("failed to set ID: " ++ m)
    | .ok id =>
      match secretKeySet masterSecretKeys id with
      | .panic m => .panic m
      | .error m => .error ("failed to generate share for node: " ++ m)
      | .ok sk =>
        match buildNodes H masterSecretKeys rest with
        | .panic m => .panic m
        | .error m => .error m
        | .ok nodes =>
          .ok ({ Index := (i : Int) + 1, PrivateKey := sk, PublicKey := getPublicKey H sk } :: nodes)

/-- `NewSignatureScheme(threshold, totalNodes)`; `rng` is the stream of scalars that the
successive `SetByCSPRNG` calls draw (`rng 0` for the master secret).  The slice of nodes holds
pointers of 8 bytes. -/
def NewSignatureScheme (H : Herumi G1 G2) (rng : ℕ → Fr) (threshold totalNodes : Int) :
    Outcome (SignatureScheme G1) :=
  if threshold > totalNodes then .error "threshold cannot be greater than total nodes"
  else
    match setByCSPRNG (rng 0) with
    | .panic m => .panic m
    | .error m => .error m
    | .ok masterSecret =>
    match getMasterSecretKey masterSecret threshold rng with
    | .panic m => .panic m
    | .error m => .error m
    | .ok masterSecretKeys =>
      if totalNodes < 0 ∨ 8 * totalNodes > maxAlloc then .panic "makeslice: len out of range"
      else
        match buildNodes H masterSecretKeys (List.range totalNodes.toNat) with
        | .panic m => .panic m
        | .error m => .error m
        | .ok nodes =>
          .ok { Params := { Threshold := threshold, TotalNodes := totalNodes }
                Nodes := nodes
                GroupPublicKey := getPublicKey H masterSecret
                MasterSecretKeys := masterSecretKeys }

/-- Body of the loop `for i, nodeIndex := range signingNodes` of `Sign`: the signatures and
identifiers collected, in order. -/
def signLoop (H : Herumi G1 G2) (ss : SignatureScheme G1) (message : List UInt8) :
    List Int → Outcome (List G2 × List Fr)
  | [] => .ok ([], [])
  | nodeIndex :: rest =>
    if nodeIndex ≤ 0 ∨ nodeIndex > ss.Params.TotalNodes then .error "invalid node index"
    else
      match ss.Nodes.get? (nodeIndex - 1).toNat with
      | none => .panic "index out of range"
      | some node =>
        match idSetDecString node.Index with
        | .panic m => .panic m
        | .error m => .error ("failed to set ID for recovery: " ++ m)
        | .ok id =>
          match signLoop H ss message rest with
          | .panic m => .panic m
          | .error m => .error m
          | .ok (sigs, idVec) => .ok (signByte H node.PrivateKey message :: sigs, id :: idVec)

/-- `SignatureScheme.Sign(message, signingNodes)`. -/
def Sign (H : Herumi G1 G2) (ss : SignatureScheme G1) (message : List UInt8)
    (signingNodes : List Int) : Outcome G2 :=
  if (signingNodes.length : Int) < ss.Params.Threshold then .error "not enough signing nodes"
  else
    match signLoop H ss message signingNodes with
    | .panic m => .panic m
    | .error m => .error m
    | .ok (sigs, idVec) =>
      (recover sigs idVec).wrapError "failed to recover group signature: "

end Scheme

/-! ## The gnark-crypto library -/

/-- `fptower.E2`: `A0 + A1 * u` with `u * u = -1`, each component an `fp.Element` given by its
canonical value. -/
structure E2 where
  A0 : ℕ
  A1 : ℕ
  deriving DecidableEq, Repr

/-- `bls12381.G1Affine`. -/
structure G1Affine where
  X : ℕ
  Y : ℕ
  deriving DecidableEq, Repr

/-- `bls12381.G2Affine`. -/
structure G2Affine where
  X : E2
  Y : E2
  deriving DecidableEq, Repr

/-- `fp.Element.Neg`. -/
def fpNeg (a : ℕ) : ℕ := if a = 0 then 0 else fieldModulus - a

/-- `G2Affine.Neg`: the same abscissa, the ordinate negated componentwise. -/
def G2Affine.Neg (a : G2Affine) : G2Affine :=
  { X := a.X, Y := { A0 := fpNeg a.Y.A0, A1 := fpNeg a.Y.A1 } }

/-- Curve-dependent operations of gnark-crypto used by `verifyConsensys`. -/
structure Gnark where
  /-- Third result of `bls12381.Generators()`. -/
  g1Generator : G1Affine
  /-- Verdict of `G1Affine.IsOnCurve`. -/
  isOnCurveG1 : G1Affine → Bool
  /-- Result of `bls12381.HashToG2(msg, dst)`. -/
  hashToG2 : List UInt8 → List UInt8 → Outcome G2Affine
  /-- Result of `bls12381.PairingCheck(P, Q)`. -/
  pairingCheck : List G1Affine → List G2Affine → Outcome Bool

/-- Big-endian value of a byte string. -/
def bigEndianValue (bs : List UInt8) : ℕ := bs.foldl (fun acc b => acc * 256 + b.toNat) 0

/-- `fp.BigEndian.Element`: the big-endian value of the 48 bytes, refused when it is not below
the modulus. -/
def fpBigEndianElement (bytes : List UInt8) : Outcome ℕ :=
  if bigEndianValue bytes < fieldModulus then .ok (bigEndianValue bytes)
  else .error "invalid fp.Element encoding"

/-- Product in `Fp2 = Fp[u] / (u^2 + 1)`. -/
def E2.mul (a b : E2) : E2 :=
  { A0 := (a.A0 * b.A0 + (fieldModulus - 1) * (a.A1 * b.A1)) % fieldModulus
    A1 := (a.A0 * b.A1 + a.A1 * b.A0) % fieldModulus }

/-- Sum in `Fp2`. -/
def E2.add (a b : E2) : E2 :=
  { A0 := (a.A0 + b.A0) % fieldModulus, A1 := (a.A1 + b.A1) % fieldModulus }

/-- The G2 curve equation `Y^2 = X^3 + 4 (1 + u)` over `Fp2`, with `(0, 0)` standing for the
point at infinity. -/
def g2CurveEquation (pt : G2Affine) : Bool :=
  (pt.X = ⟨0, 0⟩ ∧ pt.Y = ⟨0, 0⟩) ∨
    E2.mul pt.Y pt.Y = E2.add (E2.mul (E2.mul pt.X pt.X) pt.X) ⟨4, 4⟩

/-! ## `bls.go`: verification -/

/-- The slice `b[lo:hi]` of an in-range slice expression. -/
def slice (b : List UInt8) (lo hi : ℕ) : List UInt8 := (b.drop lo).take (hi - lo)

/-- `decodeFieldElement(in)`. -/
def decodeFieldElement (input : List UInt8) : Outcome ℕ :=
  if input.length ≠ 48 then .error "input length must be 48 bytes"
  else (fpBigEndianElement input).wrapError "failed to decode field element: "

/-- Domain separation tag of `verifyConsensys`:
`BLS_SIG_BLS12381G2_XMD:SHA-256_SSWU_RO_POP_`. -/
def dst : List UInt8 := "BLS_SIG_BLS12381G2_XMD:SHA-256_SSWU_RO_POP_".toUTF8.toList

/-- `verifyConsensys` from the point where both serialisations are in hand. -/
def verifyConsensysBytes (K : Gnark) (pubKeyBytes sigBytes message : List UInt8) : Outcome Bool :=
  if pubKeyBytes.length ≠ 96 then .error "invalid public key length"
  else
    match decodeFieldElement (slice pubKeyBytes 0 48) with
    | .panic m => .panic m
    | .error m => .error ("failed to decode public key x: " ++ m)
    | .ok pX =>
    match decodeFieldElement (slice pubKeyBytes 48 96) with
    | .panic m => .panic m
    | .error m => .error ("failed to decode public key y: " ++ m)
    | .ok pY =>
    let pubKey : G1Affine := { X := pX, Y := pY }
    if !K.isOnCurveG1 pubKey then .error "public key is not on curve"
    else if sigBytes.length ≠ 192 then .error "invalid signature length"
    else
      match decodeFieldElement (slice sigBytes 0 48) with
      | .panic m => .panic m
      | .error m => .error ("failed to decode sig x1: " ++ m)
      | .ok x1 =>
      match decodeFieldElement (slice sigBytes 48 96) with
      | .panic m => .panic m
      | .error m => .error ("failed to decode sig x0: " ++ m)
      | .ok x0 =>
      match decodeFieldElement (slice sigBytes 96 144) with
      | .panic m => .panic m
      | .error m => .error ("failed to decode sig y1: " ++ m)
      | .ok y1 =>
      match decodeFieldElement (slice sigBytes 144 192) with
      | .panic m => .panic m
      | .error m => .error ("failed to decode sig y0: " ++ m)
      | .ok y0 =>
      let sig : G2Affine := { X := { A0 := x0, A1 := x1 }, Y := { A0 := y0, A1 := y1 } }
      let g1 := K.g1Generator
      match K.hashToG2 message dst with
      | .panic m => .panic m
      | .error m => .error ("failed to hash message to G2: " ++ m)
      | .ok hashedMsg =>
        let hashedMsgNeg := hashedMsg.Neg
        (K.pairingCheck [g1, pubKey] [sig, hashedMsgNeg]).wrapError "failed during pairing check: "

section Verify

variable {G1 G2 : Type}

/-- `SignatureScheme.verifyConsensys(message, signature)`. -/
def verifyConsensys (H : Herumi G1 G2) (K : Gnark) (ss : SignatureScheme G1)
    (message : List UInt8) (signature : G2) : Outcome Bool :=
  let pubKeyBytes := H.serializePublicKey ss.GroupPublicKey
  let sigBytes := H.serializeSign signature
  verifyConsensysBytes K pubKeyBytes sigBytes message

/-- `SignatureScheme.VerifySignature(message, signature)`. -/
def VerifySignature (H : Herumi G1 G2) (K : Gnark) (ss : SignatureScheme G1)
    (message : List UInt8) (signature : G2) : Outcome VerificationResult :=
  let herumiResult := H.verifyByte signature ss.GroupPublicKey message
  match verifyConsensys H K ss message signature with
  | .panic m => .panic m
  | .error m => .error ("consensys verification failed: " ++ m)
  | .ok consensysResult =>
    .ok { HerumiVerification := herumiResult
          ConsensysVerification := consensysResult
          IsValid := herumiResult && consensysResult }

end Verify

/-! ## Reference values used in the statements -/

/-- The secret polynomial drawn by `NewSignatureScheme`: the master secret `s0 = rng 0`
followed by the `threshold - 1` further coefficients `rng 1, rng 2, ...`. -/
def secretPolynomial (rng : ℕ → Fr) (threshold : Int) : List Fr :=
  rng 0 :: (List.range (threshold.toNat - 1)).map fun i => rng (i + 1)

/-- The node expected at position `i` (0-based) for a secret polynomial. -/
def expectedNode {G1 G2 : Type} [AddCommGroup G1] [Module Fr G1] (H : Herumi G1 G2)
    (coeffs : List Fr) (i : ℕ) : Node G1 :=
  { Index := (i : Int) + 1
    PrivateKey := evaluatePolynomial coeffs (((i : Int) + 1 : Int) : Fr)
    PublicKey := getPublicKey H (evaluatePolynomial coeffs (((i : Int) + 1 : Int) : Fr)) }

/-- The scheme expected from `NewSignatureScheme(threshold, totalNodes)` on the entropy
`rng`. -/
def expectedScheme {G1 G2 : Type} [AddCommGroup G1] [Module Fr G1] (H : Herumi G1 G2)
    (rng : ℕ → Fr) (threshold totalNodes : Int) : SignatureScheme G1 :=
  { Params := { Threshold := threshold, TotalNodes := totalNodes }
    Nodes := (List.range totalNodes.toNat).map (expectedNode H (secretPolynomial rng threshold))
    GroupPublicKey := getPublicKey H (rng 0)
    MasterSecretKeys := secretPolynomial rng threshold }

/-- Lagrange coefficient at zero of the `k`-th identifier:
`prod_{j != k} (0 - i_j) / (i_k - i_j)` in the scalar field. -/
def lagrangeCoefficient (ids : List Fr) (k : ℕ) : Fr :=
  ∏ j ∈ (Finset.range ids.length).erase k, (0 - ids.getD j 0) * (ids.getD k 0 - ids.getD j 0)⁻¹

/-- Lagrange interpolation at zero of the points `pts` over the identifiers `ids`:
`sum_k lambda_k * pts_k`. -/
def interpolateAtZero {G2 : Type} [AddCommGroup G2] [Module Fr G2] (ids : List Fr)
    (pts : List G2) : G2 :=
  ∑ k ∈ Finset.range ids.length, lagrangeCoefficient ids k • pts.getD k 0

/-! ## The encoding contract -/

/-- Fixed-width big-endian encoding of `n` on `len` bytes. -/
def bigEndianBytes : ℕ → ℕ → List UInt8
  | 0, _ => []
  | len + 1, n => bigEndianBytes len (n / 256) ++ [UInt8.ofNat (n % 256)]

/-- The G1 point that the encoding contract assigns to a 96-byte public key: `X` from bytes
`[0, 48)`, `Y` from bytes `[48, 96)`. -/
def contractG1 (pubKeyBytes : List UInt8) : G1Affine :=
  { X := bigEndianValue (slice pubKeyBytes 0 48), Y := bigEndianValue (slice pubKeyBytes 48 96) }

/-- The G2 point that the encoding contract assigns to a 192-byte signature: the higher
component of `X`, the lower component of `X`, the higher component of `Y`, the lower component
of `Y`, in this order. -/
def contractG2 (sigBytes : List UInt8) : G2Affine :=
  { X := { A1 := bigEndianValue (slice sigBytes 0 48)
           A0 := bigEndianValue (slice sigBytes 48 96) }
    Y := { A1 := bigEndianValue (slice sigBytes 96 144)
           A0 := bigEndianValue (slice sigBytes 144 192) } }

/-- All limbs of a 96-byte public key and a 192-byte signature are canonical field elements. -/
def limbsCanonical (pubKeyBytes sigBytes : List UInt8) : Prop :=
  (contractG1 pubKeyBytes).X < fieldModulus ∧ (contractG1 pubKeyBytes).Y < fieldModulus ∧
    (contractG2 sigBytes).X.A1 < fieldModulus ∧ (contractG2 sigBytes).X.A0 < fieldModulus ∧
    (contractG2 sigBytes).Y.A1 < fieldModulus ∧ (contractG2 sigBytes).Y.A0 < fieldModulus

instance (pubKeyBytes sigBytes : List UInt8) : Decidable (limbsCanonical pubKeyBytes sigBytes) := by
  unfold limbsCanonical; infer_instance

/-! ## What the two libraries are assumed to agree on -/

/-- Agreement of the two libraries on BLS12-381: a bilinear pairing into a target group `GT`
(written additively), the affine coordinates of the points of the first library, and the
facts about serialisation, hashing and the pairing check that `VerifySignature` relies on. -/
structure Interop {G1 G2 : Type} [AddCommGroup G1] [Module Fr G1] [AddCommGroup G2]
    [Module Fr G2] (H : Herumi G1 G2) (K : Gnark) (GT : Type) [AddCommGroup GT]
    [Module Fr GT] where
  /-- The pairing `e : G1 x G2 -> GT`. -/
  pairing : G1 →ₗ[Fr] G2 →ₗ[Fr] GT
  /-- Affine coordinates of a point of G1. -/
  affineG1 : G1 → G1Affine
  /-- Affine coordinates of a point of G2. -/
  affineG2 : G2 → G2Affine
  /-- The base point is not the identity. -/
  generator_ne_zero : H.generator ≠ 0
  /-- The first library accepts a non-trivial signature that satisfies the pairing equation
  `e(g1, S) = e(PK, H(m))`. -/
  verifyByte_complete : ∀ (S : G2) (PK : G1) (m : List UInt8), S ≠ 0 → PK ≠ 0 →
    pairing H.generator S = pairing PK (H.hashToCurve m) → H.verifyByte S PK m = true
  /-- Uncompressed serialisation of a public key: `X` then `Y`, 48 bytes each. -/
  serializePublicKey_eq : ∀ P : G1, P ≠ 0 → H.serializePublicKey P =
    bigEndianBytes 48 (affineG1 P).X ++ bigEndianBytes 48 (affineG1 P).Y
  /-- Affine coordinates of G1 are canonical. -/
  affineG1_lt : ∀ P : G1, (affineG1 P).X < fieldModulus ∧ (affineG1 P).Y < fieldModulus
  /-- A point of G1 passes the on-curve test of the second library. -/
  isOnCurveG1_affineG1 : ∀ P : G1, P ≠ 0 → K.isOnCurveG1 (affineG1 P) = true
  /-- Uncompressed serialisation of a signature: `X.A1`, `X.A0`, `Y.A1`, `Y.A0`. -/
  serializeSign_eq : ∀ S : G2, S ≠ 0 → H.serializeSign S =
    bigEndianBytes 48 (affineG2 S).X.A1 ++ (bigEndianBytes 48 (affineG2 S).X.A0 ++
      (bigEndianBytes 48 (affineG2 S).Y.A1 ++ bigEndianBytes 48 (affineG2 S).Y.A0))
  /-- Affine coordinates of G2 are canonical. -/
  affineG2_lt : ∀ S : G2, (affineG2 S).X.A1 < fieldModulus ∧ (affineG2 S).X.A0 < fieldModulus ∧
    (affineG2 S).Y.A1 < fieldModulus ∧ (affineG2 S).Y.A0 < fieldModulus
  /-- Both libraries use the same base point of G1. -/
  g1Generator_eq : K.g1Generator = affineG1 H.generator
  /-- Both libraries hash a message to the same point under the tag `dst`. -/
  hashToG2_eq : ∀ m : List UInt8, K.hashToG2 m dst = .ok (affineG2 (H.hashToCurve m))
  /-- The pairing check on two pairs decides `e(P, R) - e(Q, T) = 0`. -/
  pairingCheck_eq : ∀ (P Q : G1) (R T : G2), ∃ b : Bool,
    K.pairingCheck [affineG1 P, affineG1 Q] [affineG2 R, (affineG2 T).Neg] = .ok b ∧
      (b = true ↔ pairing P R = pairing Q T)

/-! ## A scalar instance of the two libraries

Both groups are the scalar field itself, the base point is `1` and the pairing is the product
of scalars.  It is used to instantiate the general statements at concrete inputs. -/

/-- Hash of the scalar instance. -/
def scalarHash (m : List UInt8) : Fr := ((bigEndianValue m : ℕ) : Fr) + 1

/-- Affine coordinates of a G1 point in the scalar instance. -/
def scalarAffineG1 (P : Fr) : G1Affine := { X := P.val, Y := 1 }

/-- Affine coordinates of a G2 point in the scalar instance. -/
def scalarAffineG2 (S : Fr) : G2Affine := { X := { A0 := S.val, A1 := 0 }, Y := { A0 := 1, A1 := 0 } }

/-- The first library in the scalar instance. -/
def scalarHerumi : Herumi Fr Fr :=
  { generator := 1
    hashToCurve := scalarHash
    verifyByte := fun S PK m => decide (S ≠ 0 ∧ PK ≠ 0 ∧ S = PK * scalarHash m)
    serializePublicKey := fun P =>
      bigEndianBytes 48 (scalarAffineG1 P).X ++ bigEndianBytes 48 (scalarAffineG1 P).Y
    serializeSign := fun S =>
      bigEndianBytes 48 (scalarAffineG2 S).X.A1 ++ (bigEndianBytes 48 (scalarAffineG2 S).X.A0 ++
        (bigEndianBytes 48 (scalarAffineG2 S).Y.A1 ++ bigEndianBytes 48 (scalarAffineG2 S).Y.A0)) }

/-- Sum of the signed products of the abscissae of the paired points. -/
def scalarPairingSum : List G1Affine → List G2Affine → Fr
  | p :: ps, q :: qs =>
    (if q.Y.A0 = 1 then 1 else -1) * (p.X : Fr) * (q.X.A0 : Fr) + scalarPairingSum ps qs
  | _, _ => 0

/-- The second library in the scalar instance. -/
def scalarGnark : Gnark :=
  { g1Generator := scalarAffineG1 1
    isOnCurveG1 := fun _ => true
    hashToG2 := fun m _ => .ok (scalarAffineG2 (scalarHash m))
    pairingCheck := fun P Q =>
      if P.length = 0 ∨ P.length ≠ Q.length then .error "invalid inputs sizes"
      else .ok (decide (scalarPairingSum P Q = 0)) }

/-- Entropy of the examples: the draws are `5, 6, 7, ...`. -/
def exampleRng (i : ℕ) : Fr := ((i + 5 : ℕ) : Fr)

/-- The message `hello`. -/
def helloMessage : List UInt8 := [104, 101, 108, 108, 111]

/-- A 192-byte signature encoding whose limbs are `X.A1 = 0, X.A0 = 1, Y.A1 = 0, Y.A0 = 1`. -/
def offCurveSigBytes : List UInt8 :=
  bigEndianBytes 48 0 ++ (bigEndianBytes 48 1 ++ (bigEndianBytes 48 0 ++ bigEndianBytes 48 1))

/-! ## Primality of the scalar order -/

theorem powModAux_spec (fuel : ℕ) : ∀ (b e m acc : ℕ), e < 2 ^ fuel →
    ((powModAux fuel b e m acc : ℕ) : ZMod m) = (acc : ZMod m) * (b : ZMod m) ^ e := by
  induction fuel with
  | zero =>
    intro b e m acc he
    have : e = 0 := by simpa using he
    subst this
    simp [powModAux]
  | succ k ih =>
    intro b e m acc he
    unfold powModAux
    by_cases h0 : e = 0
    · simp [h0]
    · rw [if_neg h0]
      have hlt : e / 2 < 2 ^ k := by
        rw [Nat.div_lt_iff_lt_mul (by norm_num)]
        rw [pow_succ] at he
        exact he
      rw [ih _ _ _ _ hlt]
      have hb : ((b * b % m : ℕ) : ZMod m) = (b : ZMod m) ^ 2 := by
        rw [ZMod.natCast_mod]; push_cast; ring
      rw [hb, ← pow_mul]
      rcases Nat.mod_two_eq_zero_or_one e with h | h
      · have he2 : 2 * (e / 2) = e := by omega
        rw [if_neg (by omega), he2]
      · have he2 : 2 * (e / 2) + 1 = e := by omega
        rw [if_pos h, ZMod.natCast_mod]
        push_cast
        conv_rhs => rw [← he2, pow_succ]
        ring

theorem pow_eq_one_iff_powModAux (p a e : ℕ) (he : e < 2 ^ 256) :
    (a : ZMod p) ^ e = 1 ↔ powModAux 256 a e p 1 % p = 1 % p := by
  rw [← ZMod.natCast_eq_natCast_iff', powModAux_spec 256 a e p 1 he]
  simp

/-- Lucas test from a list of the prime factors of `p - 1`, with multiplicity. -/
theorem prime_of_certificate (p a : ℕ) (L : List ℕ) (hlt : p < 2 ^ 256)
    (hL : ∀ q ∈ L, q.Prime) (hprod : L.prod = p - 1)
    (h1 : powModAux 256 a (p - 1) p 1 % p = 1 % p)
    (hq : ∀ q ∈ L, powModAux 256 a ((p - 1) / q) p 1 % p ≠ 1 % p) : p.Prime := by
  refine lucas_primality p (a : ZMod p) ?_ ?_
  · exact (pow_eq_one_iff_powModAux p a _ (by omega)).2 h1
  · intro q hqp hdvd
    rw [← hprod, Prime.dvd_prod_iff (Nat.Prime.prime hqp)] at hdvd
    obtain ⟨x, hx, hqx⟩ := hdvd
    have hxq : q = x := (Nat.prime_dvd_prime_iff_eq hqp (hL x hx)).1 hqx
    subst hxq
    intro h
    have hlt' : (p - 1) / q < 2 ^ 256 := lt_of_le_of_lt (Nat.div_le_self _ _) (by omega)
    exact hq q hx ((pow_eq_one_iff_powModAux p a _ hlt').1 h)

set_option maxRecDepth 100000 in
theorem prime_110573 : Nat.Prime 110573 :=
  prime_of_certificate 110573 3 [2, 2, 7, 11, 359] (by decide)
    (by intro q hq; simp only [List.mem_cons, List.mem_singleton, List.not_mem_nil, or_false] at hq
        rcases hq with h | h | h | h | h <;> subst h <;> norm_num)
    (by decide) (by decide) (by decide)

set_option maxRecDepth 100000 in
theorem prime_2653753 : Nat.Prime 2653753 :=
  prime_of_certificate 2653753 5 [2, 2, 2, 3, 110573] (by decide)
    (by intro q hq; simp only [List.mem_cons, List.mem_singleton, List.not_mem_nil, or_false] at hq
        rcases hq with h | h | h | h | h <;> subst h <;> first | exact prime_110573 | norm_num)
    (by decide) (by decide) (by decide)

set_option maxRecDepth 100000 in
theorem prime_63690073 : Nat.Prime 63690073 :=
  prime_of_certificate 63690073 7 [2, 2, 2, 3, 2653753] (by decide)
    (by intro q hq; simp only [List.mem_cons, List.mem_singleton, List.not_mem_nil, or_false] at hq
        rcases hq with h | h | h | h | h <;> subst h <;> first | exact prime_2653753 | norm_num)
    (by decide) (by decide) (by decide)

set_option maxRecDepth 100000 in
theorem prime_254760293 : Nat.Prime 254760293 :=
  prime_of_certificate 254760293 2 [2, 2, 63690073] (by decide)
    (by intro q hq; simp only [List.mem_cons, List.mem_singleton, List.not_mem_nil, or_false] at hq
        rcases hq with h | h | h <;> subst h <;> first | exact prime_63690073 | norm_num)
    (by decide) (by decide) (by decide)

set_option maxRecDepth 100000 in
theorem prime_609743 : Nat.Prime 609743 :=
  prime_of_certificate 609743 5 [2, 7, 97, 449] (by decide)
    (by intro q hq; simp only [List.mem_cons, List.mem_singleton, List.not_mem_nil, or_false] at hq
        rcases hq with h | h | h | h <;> subst h <;> norm_num)
    (by decide) (by decide) (by decide)

set_option maxRecDepth 100000 in
theorem prime_52437899 : Nat.Prime 52437899 :=
  prime_of_certificate 52437899 2 [2, 43, 609743] (by decide)
    (by intro q hq; simp only [List.mem_cons, List.mem_singleton, List.not_mem_nil, or_false] at hq
        rcases hq with h | h | h <;> subst h <;> first | exact prime_609743 | norm_num)
    (by decide) (by decide) (by decide)

set_option maxRecDepth 100000 in
theorem prime_2529403 : Nat.Prime 2529403 :=
  prime_of_certificate 2529403 2 [2, 3, 23, 18329] (by decide)
    (by intro q hq; simp only [List.mem_cons, List.mem_singleton, List.not_mem_nil, or_false] at hq
        rcases hq with h | h | h | h <;> subst h <;> norm_num)
    (by decide) (by decide) (by decide)

set_option maxRecDepth 100000 in
theorem prime_2508409 : Nat.Prime 2508409 :=
  prime_of_certificate 2508409 11 [2, 2, 2, 3, 3, 3, 3, 7, 7, 79] (by decide)
    (by intro q hq
        simp only [List.mem_cons, List.mem_singleton, List.not_mem_nil, or_false] at hq
        rcases hq with h | h | h | h | h | h | h | h | h | h <;> subst h <;> norm_num)
    (by decide) (by decide) (by decide)

set_option maxRecDepth 100000 in
theorem prime_906349 : Nat.Prime 906349 :=
  prime_of_certificate 906349 2 [2, 2, 3, 47, 1607] (by decide)
    (by intro q hq; simp only [List.mem_cons, List.mem_singleton, List.not_mem_nil, or_false] at hq
        rcases hq with h | h | h | h | h <;> subst h <;> norm_num)
    (by decide) (by decide) (by decide)

set_option maxRecDepth 100000 in
theorem prime_859267 : Nat.Prime 859267 :=
  prime_of_certificate 859267 2 [2, 3, 3, 47737] (by decide)
    (by intro q hq; simp only [List.mem_cons, List.mem_singleton, List.not_mem_nil, or_false] at hq
        rcases hq with h | h | h | h <;> subst h <;> norm_num)
    (by decide) (by decide) (by decide)

set_option maxRecDepth 100000 in
theorem prime_125527 : Nat.Prime 125527 :=
  prime_of_certificate 125527 5 [2, 3, 20921] (by decide)
    (by intro q hq; simp only [List.mem_cons, List.mem_singleton, List.not_mem_nil, or_false] at hq
        rcases hq with h | h | h <;> subst h <;> norm_num)
    (by decide) (by decide) (by decide)

set_option maxRecDepth 100000 in
/-- The scalar order is prime. -/
theorem scalarOrder_prime : Nat.Prime scalarOrder :=
  prime_of_certificate scalarOrder 7 scalarOrderPredFactors (by decide)
    (by intro q hq
        simp only [scalarOrderPredFactors, List.mem_append, List.mem_replicate, List.mem_cons,
          List.mem_singleton, List.not_mem_nil, or_false] at hq
        rcases hq with ⟨-, h⟩ | h | h | h | h | h | h | h | h | h | h | h | h | h <;> subst h <;>
          first
          | exact prime_125527 | exact prime_859267 | exact prime_906349 | exact prime_2508409
          | exact prime_2529403 | exact prime_52437899 | exact prime_254760293 | norm_num)
    (by decide) (by decide) (by decide)

instance scalarOrder_fact : Fact (Nat.Prime scalarOrder) := ⟨scalarOrder_prime⟩

open Outcome

/-! ## Key generation -/

section KeyGeneration
variable {G1 G2 : Type} [AddCommGroup G1] [Module Fr G1] [AddCommGroup G2] [Module Fr G2]

theorem maxAlloc_eq : maxAlloc = 281474976710656 := by decide

theorem maxInt_eq : maxInt = 9223372036854775807 := by decide

theorem setByCSPRNG_ok (raw : Fr) (h : raw ≠ 0) : setByCSPRNG raw = .ok raw := by
  unfold setByCSPRNG
  rw [if_neg h]

theorem setByCSPRNG_zero : setByCSPRNG 0 = .panic "err blsSecretKeySetByCSPRNG zero" := by
  unfold setByCSPRNG
  rw [if_pos rfl]

theorem drawKeys_ok (rng : ℕ → Fr) (l : List ℕ) (h : ∀ i ∈ l, rng i ≠ 0) :
    drawKeys rng l = .ok (l.map rng) := by
  induction l with
  | nil => rfl
  | cons i rest ih =>
    simp only [drawKeys, setByCSPRNG_ok _ (h i (List.mem_cons_self _ _)),
      ih fun j hj => h j (List.mem_cons_of_mem _ hj), List.map_cons]

theorem drawKeys_panic (rng : ℕ → Fr) (l : List ℕ) (h : ∃ i ∈ l, rng i = 0) :
    ∃ m, drawKeys rng l = .panic m := by
  induction l with
  | nil => obtain ⟨i, hi, -⟩ := h; cases hi
  | cons i rest ih =>
    unfold drawKeys
    by_cases h0 : rng i = 0
    · rw [h0, setByCSPRNG_zero]
      exact ⟨_, rfl⟩
    · rw [setByCSPRNG_ok _ h0]
      obtain ⟨j, hj, hj0⟩ := h
      have hjr : j ∈ rest := by
        rcases List.mem_cons.1 hj with rfl | hjr
        · exact absurd hj0 h0
        · exact hjr
      obtain ⟨m, hm⟩ := ih ⟨j, hjr, hj0⟩
      rw [hm]
      exact ⟨_, rfl⟩

theorem getMasterSecretKey_ok (sec : Fr) (k : Int) (rng : ℕ → Fr) (hk : 1 ≤ k)
    (hsize : 32 * k ≤ maxAlloc) (hdraw : ∀ i : ℕ, i < k.toNat → rng i ≠ 0) :
    getMasterSecretKey sec k rng =
      .ok (sec :: (List.range (k.toNat - 1)).map fun i => rng (i + 1)) := by
  unfold getMasterSecretKey
  rw [if_neg (by omega), if_neg (by omega), drawKeys_ok]
  · simp only [List.map_map]
    rfl
  · intro i hi
    obtain ⟨j, hj, rfl⟩ := List.mem_map.1 hi
    rw [List.mem_range] at hj
    exact hdraw (j + 1) (by omega)

theorem getMasterSecretKey_not_ok (sec : Fr) (k : Int) (rng : ℕ → Fr)
    (h : k < 1 ∨ 32 * k > maxAlloc ∨ ∃ i : ℕ, 1 ≤ i ∧ i < k.toNat ∧ rng i = 0) :
    ∃ m, getMasterSecretKey sec k rng = .panic m := by
  unfold getMasterSecretKey
  by_cases h1 : k < 0 ∨ 32 * k > maxAlloc
  · rw [if_pos h1]; exact ⟨_, rfl⟩
  rw [if_neg h1]
  by_cases h2 : k = 0
  · rw [if_pos h2]; exact ⟨_, rfl⟩
  rw [if_neg h2]
  have hex : ∃ i ∈ (List.range (k.toNat - 1)).map (fun i => i + 1), rng i = 0 := by
    rcases h with h | h | ⟨i, hi1, hi2, hi0⟩
    · omega
    · exact absurd (Or.inr h) h1
    · exact ⟨i, List.mem_map.2 ⟨i - 1, List.mem_range.2 (by omega), by omega⟩, hi0⟩
  obtain ⟨m, hm⟩ := drawKeys_panic rng _ hex
  rw [hm]
  exact ⟨_, rfl⟩

theorem idSetDecString_ok (v : Int) (h0 : 0 ≤ v) (h1 : v ≤ maxInt) :
    idSetDecString v = .ok (v : Fr) := by
  unfold idSetDecString
  rw [if_pos]
  have : (v.natAbs : Int) < (scalarOrder : Int) := by
    rw [Int.natAbs_of_nonneg h0]
    have : maxInt < (scalarOrder : Int) := by decide
    omega
  exact_mod_cast this

theorem buildNodes_ok (H : Herumi G1 G2) (c : Fr) (cs : List Fr) (l : List ℕ)
    (hl : ∀ i ∈ l, (i : Int) + 1 ≤ maxInt) :
    buildNodes H (c :: cs) l = .ok (l.map (expectedNode H (c :: cs))) := by
  induction l with
  | nil => rfl
  | cons i rest ih =>
    have hi := hl i (List.mem_cons_self _ _)
    have hr : ∀ j ∈ rest, (j : Int) + 1 ≤ maxInt := fun j hj => hl j (List.mem_cons_of_mem _ hj)
    simp only [buildNodes, idSetDecString_ok _ (by omega : (0 : Int) ≤ (i : Int) + 1) hi,
      secretKeySet, ih hr, List.map_cons, expectedNode]

/-- `NewSignatureScheme` succeeds when the two slices can be allocated and the `t` draws are
not zero. -/
theorem NewSignatureScheme_ok (H : Herumi G1 G2) (rng : ℕ → Fr) (t n : Int)
    (h1 : 1 ≤ t) (h2 : t ≤ n) (ht : 32 * t ≤ maxAlloc) (hn : 8 * n ≤ maxAlloc)
    (hdraw : ∀ i : ℕ, i < t.toNat → rng i ≠ 0) :
    NewSignatureScheme H rng t n = .ok (expectedScheme H rng t n) := by
  have hA := maxAlloc_eq
  have hM := maxInt_eq
  unfold NewSignatureScheme
  rw [if_neg (by omega), setByCSPRNG_ok _ (hdraw 0 (by omega))]
  simp only [getMasterSecretKey_ok _ _ _ h1 ht hdraw]
  rw [if_neg (by omega)]
  have hl : ∀ i ∈ List.range n.toNat, (i : Int) + 1 ≤ maxInt := by
    intro i hi
    rw [List.mem_range] at hi
    omega
  rw [buildNodes_ok H _ _ _ hl]
  rfl

/-- A scheme is returned only when the slices can be allocated and the draws are not zero,
and it is the expected one. -/
theorem NewSignatureScheme_inv (H : Herumi G1 G2) (rng : ℕ → Fr) (t n : Int)
    (ss : SignatureScheme G1) (h1 : 1 ≤ t) (hss : NewSignatureScheme H rng t n = .ok ss) :
    ss = expectedScheme H rng t n ∧ t ≤ n ∧ n ≤ maxInt ∧ rng 0 ≠ 0 := by
  have hA := maxAlloc_eq
  have hM := maxInt_eq
  by_cases h2 : t ≤ n
  swap
  · unfold NewSignatureScheme at hss
    rw [if_pos (by omega)] at hss
    cases hss
  by_cases h0 : rng 0 = 0
  · unfold NewSignatureScheme at hss
    rw [if_neg (by omega), h0, setByCSPRNG_zero] at hss
    cases hss
  by_cases hk : 32 * t > maxAlloc ∨ ∃ i : ℕ, 1 ≤ i ∧ i < t.toNat ∧ rng i = 0
  · obtain ⟨m, hm⟩ := getMasterSecretKey_not_ok (rng 0) t rng (Or.inr hk)
    unfold NewSignatureScheme at hss
    rw [if_neg (by omega), setByCSPRNG_ok _ h0] at hss
    simp only [hm] at hss
    cases hss
  by_cases hn : 8 * n ≤ maxAlloc
  swap
  · have ht : 32 * t ≤ maxAlloc := by
      by_contra hc
      exact hk (Or.inl (by omega))
    have hdraw : ∀ i : ℕ, i < t.toNat → rng i ≠ 0 := by
      intro i hi hz
      rcases Nat.eq_zero_or_pos i with rfl | hpos
      · exact h0 hz
      · exact hk (Or.inr ⟨i, hpos, hi, hz⟩)
    unfold NewSignatureScheme at hss
    rw [if_neg (by omega), setByCSPRNG_ok _ h0] at hss
    simp only [getMasterSecretKey_ok _ _ _ h1 ht hdraw] at hss
    rw [if_pos (Or.inr (by omega))] at hss
    cases hss
  have ht : 32 * t ≤ maxAlloc := by
    by_contra hc
    exact hk (Or.inl (by omega))
  have hdraw : ∀ i : ℕ, i < t.toNat → rng i ≠ 0 := by
    intro i hi hz
    rcases Nat.eq_zero_or_pos i with rfl | hpos
    · exact h0 hz
    · exact hk (Or.inr ⟨i, hpos, hi, hz⟩)
  rw [NewSignatureScheme_ok H rng t n h1 h2 ht hn hdraw] at hss
  cases hss
  exact ⟨rfl, h2, by omega, h0⟩

end KeyGeneration

/-! ## Polynomial evaluation and interpolation -/

section Interpolation

open Polynomial

variable {G2 : Type} [AddCommGroup G2] [Module Fr G2]

theorem evaluatePolynomial_cons (c : Fr) (cs : List Fr) (x : Fr) :
    evaluatePolynomial (c :: cs) x = evaluatePolynomial cs x * x + c := by
  cases cs with
  | nil => simp [evaluatePolynomial]
  | cons d ds => simp [evaluatePolynomial]

/-- The Horner evaluation is the evaluation of a polynomial of degree below the number of
coefficients, whose value at zero is the first coefficient. -/
theorem evaluatePolynomial_poly (cs : List Fr) :
    ∃ f : Fr[X], f.degree < (cs.length : WithBot ℕ) ∧ ∀ x, f.eval x = evaluatePolynomial cs x := by
  induction cs with
  | nil => exact ⟨0, by simp, fun x => by simp [evaluatePolynomial]⟩
  | cons c cs ih =>
    obtain ⟨f, hdeg, hf⟩ := ih
    refine ⟨f * X + C c, ?_, fun x => ?_⟩
    · rw [Polynomial.degree_lt_iff_coeff_zero] at hdeg ⊢
      intro m hm
      simp only [List.length_cons] at hm
      obtain ⟨m', rfl⟩ : ∃ m', m = m' + 1 := ⟨m - 1, by omega⟩
      rw [coeff_add, coeff_mul_X, coeff_C_succ, add_zero]
      exact hdeg m' (by omega)
    · rw [evaluatePolynomial_cons, ← hf x]
      simp

theorem evaluatePolynomial_zero (c : Fr) (cs : List Fr) :
    evaluatePolynomial (c :: cs) 0 = c := by
  rw [evaluatePolynomial_cons]; simp

/-- Lagrange interpolation at zero: the weighted sum of the values of a polynomial of degree
below `k` at `k` distinct points is its value at zero. -/
theorem lagrange_at_zero (k : ℕ) (x : ℕ → Fr) (hinj : Set.InjOn x (Finset.range k : Set ℕ))
    (f : Fr[X]) (hdeg : f.degree < (k : WithBot ℕ)) :
    ∑ i ∈ Finset.range k,
      (∏ j ∈ (Finset.range k).erase i, (x i - x j)⁻¹ * (0 - x j)) * f.eval (x i) = f.eval 0 := by
  have hcard : f.degree < ((Finset.range k).card : WithBot ℕ) := by simpa using hdeg
  have h := Lagrange.eq_interpolate (s := Finset.range k) (v := x) hinj hcard
  conv_rhs => rw [h]
  rw [Lagrange.interpolate_apply, eval_finset_sum]
  refine Finset.sum_congr rfl fun i _ => ?_
  rw [eval_mul, eval_C, Lagrange.basis, eval_prod, mul_comm]
  congr 1
  refine Finset.prod_congr rfl fun j _ => ?_
  simp [Lagrange.basisDivisor]

end Interpolation

/-! ## Recovery -/

section Recovery

variable {G2 : Type} [AddCommGroup G2] [Module Fr G2]

theorem lagrangeDenominator_fold (S : List Fr) (i : ℕ) (b0 : Fr) (m : ℕ)
    (hne : ∀ j < m, j ≠ i → S.getD j 0 - S.getD i 0 ≠ 0) :
    (List.range m).foldl
      (fun acc j =>
        match acc with
        | none => none
        | some b =>
          if j ≠ i then
            let v := S.getD j 0 - S.getD i 0
            if v = 0 then none else some (b * v)
          else some b)
      (some b0) = some (b0 * ∏ j ∈ (Finset.range m).erase i, (S.getD j 0 - S.getD i 0)) := by
  induction m with
  | zero => simp
  | succ m ih =>
    rw [List.range_succ, List.foldl_append, ih (fun j hj => hne j (by omega))]
    by_cases hmi : m = i
    · subst hmi
      simp [Finset.range_succ]
    · have hv := hne m (by omega) hmi
      have hmem : m ∉ (Finset.range m).erase i := by simp
      simp only [List.foldl_cons, List.foldl_nil, ne_eq, hmi, not_false_eq_true, if_true, hv,
        if_false]
      rw [Finset.range_succ, Finset.erase_insert_of_ne hmi, Finset.prod_insert hmem]
      congr 1
      ring

theorem lagrangeDenominator_eq (S : List Fr) (i : ℕ)
    (hne : ∀ j < S.length, j ≠ i → S.getD j 0 - S.getD i 0 ≠ 0) :
    lagrangeDenominator S i =
      some (S.getD i 0 * ∏ j ∈ (Finset.range S.length).erase i, (S.getD j 0 - S.getD i 0)) :=
  lagrangeDenominator_fold S i _ _ hne

theorem lagrangeLoop_fold (S : List Fr) (vec : List G2) (a : Fr) (b : ℕ → Fr) (r0 : G2) (m : ℕ)
    (hb : ∀ i < m, lagrangeDenominator S i = some (b i)) :
    (List.range m).foldl
      (fun acc i =>
        match acc with
        | none => none
        | some r =>
          match lagrangeDenominator S i with
          | none => none
          | some b => some (r + (a * b⁻¹) • vec.getD i 0))
      (some r0) = some (r0 + ∑ i ∈ Finset.range m, (a * (b i)⁻¹) • vec.getD i 0) := by
  induction m with
  | zero => simp
  | succ m ih =>
    rw [List.range_succ, List.foldl_append, ih (fun i hi => hb i (by omega))]
    simp only [List.foldl_cons, List.foldl_nil, hb m (by omega)]
    rw [Finset.sum_range_succ, add_assoc]

theorem list_prod_eq_prod_range (S : List Fr) :
    S.prod = ∏ i ∈ Finset.range S.length, S.getD i 0 := by
  induction S with
  | nil => simp
  | cons c cs ih =>
    rw [List.prod_cons, List.length_cons, Finset.prod_range_succ', ih]
    simp [mul_comm]

theorem mcl_coefficient (S : List Fr) (i : ℕ) (hi : i < S.length) (hxi : S.getD i 0 ≠ 0) :
    S.prod * (S.getD i 0 * ∏ j ∈ (Finset.range S.length).erase i, (S.getD j 0 - S.getD i 0))⁻¹
      = lagrangeCoefficient S i := by
  have hmem : i ∈ Finset.range S.length := Finset.mem_range.2 hi
  rw [list_prod_eq_prod_range, ← Finset.mul_prod_erase _ _ hmem, mul_inv,
    mul_mul_mul_comm, mul_inv_cancel₀ hxi, one_mul, ← Finset.prod_inv_distrib,
    ← Finset.prod_mul_distrib, lagrangeCoefficient]
  refine Finset.prod_congr rfl fun j _ => ?_
  rw [zero_sub, ← neg_sub (S.getD j 0) (S.getD i 0), inv_neg, neg_mul_neg]

theorem getD_ne_of_nodup (S : List Fr) (hnd : S.Nodup) (i j : ℕ) (hi : i < S.length)
    (hj : j < S.length) (hij : j ≠ i) : S.getD j 0 - S.getD i 0 ≠ 0 := by
  intro h
  rw [sub_eq_zero, List.getD_eq_getElem _ _ hj, List.getD_eq_getElem _ _ hi] at h
  exact hij ((List.Nodup.getElem_inj_iff hnd).1 h)

theorem lagrangeInterpolation_eq (S : List Fr) (vec : List G2) (hk : 0 < S.length)
    (hnz : ∀ x ∈ S, x ≠ 0) (hnd : S.Nodup) :
    lagrangeInterpolation S vec = some (interpolateAtZero S vec) := by
  unfold lagrangeInterpolation
  rw [if_neg (by omega)]
  by_cases h1 : S.length = 1
  · rw [if_pos h1]
    simp [interpolateAtZero, lagrangeCoefficient, h1]
  · rw [if_neg h1]
    have ha : S.prod ≠ 0 := by
      rw [Ne, List.prod_eq_zero_iff]
      exact fun h => hnz 0 h rfl
    simp only [ha, if_false]
    unfold lagrangeLoop
    rw [lagrangeLoop_fold S vec S.prod
      (fun i => S.getD i 0 * ∏ j ∈ (Finset.range S.length).erase i, (S.getD j 0 - S.getD i 0))
      0 S.length
      (fun i hi => lagrangeDenominator_eq S i fun j hj hji => getD_ne_of_nodup S hnd i j hi hj hji)]
    rw [zero_add, interpolateAtZero]
    congr 1
    refine Finset.sum_congr rfl fun i hi => ?_
    have hi' : i < S.length := Finset.mem_range.1 hi
    rw [mcl_coefficient S i hi']
    rw [List.getD_eq_getElem _ _ hi']
    exact hnz _ (List.getElem_mem _)

theorem recover_eq (ids : List Fr) (sigs : List G2) (hlen : sigs.length = ids.length)
    (hk : 0 < ids.length) (hnz : ∀ x ∈ ids, x ≠ 0) (hnd : ids.Nodup) :
    recover sigs ids = .ok (interpolateAtZero ids sigs) := by
  unfold recover
  rw [if_neg (by omega), if_neg (by simp [hlen]), lagrangeInterpolation_eq ids sigs hk hnz hnd]

/-- Interpolating the shares `f(x) * P` over at least as many distinct identifiers as `f` has
coefficients gives `f(0) * P`. -/
theorem interpolateAtZero_shares (c : Fr) (cs : List Fr) (ids : List Fr) (P : G2)
    (hnd : ids.Nodup) (hdeg : (c :: cs).length ≤ ids.length) :
    interpolateAtZero ids (ids.map fun x => evaluatePolynomial (c :: cs) x • P) = c • P := by
  obtain ⟨f, hf, hev⟩ := evaluatePolynomial_poly (c :: cs)
  have hinj : Set.InjOn (fun i => ids.getD i 0) (Finset.range ids.length : Set ℕ) := by
    intro i hi j hj hij
    have hi' : i < ids.length := by simpa using hi
    have hj' : j < ids.length := by simpa using hj
    by_contra hne
    exact getD_ne_of_nodup ids hnd j i hj' hi' hne (sub_eq_zero.2 hij)
  have hdeg' : f.degree < (ids.length : WithBot ℕ) :=
    lt_of_lt_of_le hf (by exact_mod_cast hdeg)
  have key := lagrange_at_zero ids.length (fun i => ids.getD i 0) hinj f hdeg'
  rw [hev 0, evaluatePolynomial_zero] at key
  beta_reduce at key
  have hc : c • P = (∑ i ∈ Finset.range ids.length,
      (∏ j ∈ (Finset.range ids.length).erase i, (ids.getD i 0 - ids.getD j 0)⁻¹ *
        (0 - ids.getD j 0)) * Polynomial.eval (ids.getD i 0) f) • P := by rw [key]
  rw [hc, interpolateAtZero, Finset.sum_smul]
  refine Finset.sum_congr rfl fun i hi => ?_
  have hi' : i < ids.length := Finset.mem_range.1 hi
  have hget : (ids.map fun x => evaluatePolynomial (c :: cs) x • P).getD i 0
      = evaluatePolynomial (c :: cs) (ids.getD i 0) • P := by
    rw [List.getD_eq_getElem _ _ (by simpa using hi'), List.getElem_map,
      List.getD_eq_getElem _ _ hi']
  rw [hget, smul_smul, hev, lagrangeCoefficient]
  congr 2
  refine Finset.prod_congr rfl fun j _ => ?_
  rw [mul_comm]

end Recovery

/-! ## Signing -/

section Signing

variable {G1 G2 : Type} [AddCommGroup G1] [Module Fr G1] [AddCommGroup G2] [Module Fr G2]

theorem intCast_eq_of_bounds (a b : Int) (ha : 1 ≤ a) (ha' : a ≤ maxInt) (hb : 0 ≤ b)
    (hb' : b ≤ maxInt) (h : ((a : Int) : Fr) = ((b : Int) : Fr)) : a = b := by
  rw [ZMod.intCast_eq_intCast_iff_dvd_sub] at h
  have hlt : maxInt < (scalarOrder : Int) := by decide
  obtain ⟨q, hq⟩ := h
  have hq0 : q = 0 := by
    by_contra hne
    rcases lt_or_gt_of_ne hne with hneg | hpos
    · have : (scalarOrder : Int) * q ≤ (scalarOrder : Int) * (-1) :=
        Int.mul_le_mul_of_nonneg_left (by omega) (by omega)
      omega
    · have : (scalarOrder : Int) * 1 ≤ (scalarOrder : Int) * q :=
        Int.mul_le_mul_of_nonneg_left (by omega) (by omega)
      omega
  rw [hq0, mul_zero] at hq
  omega

theorem intCast_ne_zero_of_bounds (a : Int) (ha : 1 ≤ a) (ha' : a ≤ maxInt) :
    ((a : Int) : Fr) ≠ 0 := by
  intro h
  have := intCast_eq_of_bounds a 0 ha ha' le_rfl (by decide) (by simpa using h)
  omega

theorem signLoop_expectedScheme (H : Herumi G1 G2) (rng : ℕ → Fr) (t n : Int) (hn : n ≤ maxInt)
    (message : List UInt8) (A : List Int) (hA : ∀ a ∈ A, 1 ≤ a ∧ a ≤ n) :
    signLoop H (expectedScheme H rng t n) message A =
      .ok (A.map (fun (a : Int) =>
          signByte H (evaluatePolynomial (secretPolynomial rng t) ((a : Int) : Fr)) message),
        A.map fun (a : Int) => ((a : Int) : Fr)) := by
  induction A with
  | nil => rfl
  | cons a rest ih =>
    obtain ⟨ha1, ha2⟩ := hA a (List.mem_cons_self _ _)
    have hr : ∀ b ∈ rest, 1 ≤ b ∧ b ≤ n := fun b hb => hA b (List.mem_cons_of_mem _ hb)
    have hidx : (a - 1).toNat < n.toNat := by omega
    have hcast : (((a - 1).toNat : ℕ) : Int) + 1 = a := by omega
    have hnode : (expectedScheme H rng t n).Nodes.get? (a - 1).toNat
        = some (expectedNode H (secretPolynomial rng t) (a - 1).toNat) := by
      simp only [expectedScheme, List.get?_eq_getElem?, List.getElem?_map,
        List.getElem?_range hidx, Option.map_some']
    unfold signLoop
    rw [if_neg (by simp only [expectedScheme]; omega), hnode]
    simp only [expectedNode, hcast, idSetDecString_ok a (by omega) (by omega), ih hr,
      List.map_cons]

/-- The partial signatures of the nodes `A` under the secret polynomial of the scheme. -/
theorem Sign_expectedScheme (H : Herumi G1 G2) (rng : ℕ → Fr) (t n : Int) (h1 : 1 ≤ t)
    (hn : n ≤ maxInt) (message : List UInt8) (A : List Int) (hnd : A.Nodup)
    (hA : ∀ a ∈ A, 1 ≤ a ∧ a ≤ n) (hlen : t ≤ (A.length : Int)) :
    Sign H (expectedScheme H rng t n) message A =
        .ok (interpolateAtZero (A.map fun (a : Int) => ((a : Int) : Fr))
          (A.map fun (a : Int) =>
            signByte H (evaluatePolynomial (secretPolynomial rng t) ((a : Int) : Fr)) message)) ∧
      interpolateAtZero (A.map fun (a : Int) => ((a : Int) : Fr))
          (A.map fun (a : Int) =>
            signByte H (evaluatePolynomial (secretPolynomial rng t) ((a : Int) : Fr)) message) =
        rng 0 • H.hashToCurve message := by
  have hidnd : (A.map fun (a : Int) => ((a : Int) : Fr)).Nodup := by
    refine List.Nodup.map_on ?_ hnd
    intro a ha b hb hab
    obtain ⟨ha1, ha2⟩ := hA a ha
    obtain ⟨hb1, hb2⟩ := hA b hb
    exact intCast_eq_of_bounds a b ha1 (by omega) (by omega) (by omega) hab
  constructor
  · unfold Sign
    rw [if_neg (by simp only [expectedScheme]; omega), signLoop_expectedScheme H rng t n hn message A hA]
    simp only
    rw [recover_eq _ _ (by simp) (by simp only [List.length_map]; omega) ?_ hidnd]
    · rfl
    · intro x hx
      obtain ⟨a, ha, rfl⟩ := List.mem_map.1 hx
      obtain ⟨ha1, ha2⟩ := hA a ha
      exact intCast_ne_zero_of_bounds a ha1 (by omega)
  · have hmap : (A.map fun (a : Int) =>
          signByte H (evaluatePolynomial (secretPolynomial rng t) ((a : Int) : Fr)) message)
        = (A.map fun (a : Int) => ((a : Int) : Fr)).map fun x =>
            evaluatePolynomial (secretPolynomial rng t) x • H.hashToCurve message := by
      rw [List.map_map]; rfl
    rw [hmap]
    unfold secretPolynomial
    refine interpolateAtZero_shares _ _ _ _ hidnd ?_
    simp only [List.length_cons, List.length_map, List.length_range]
    omega

end Signing

/-! ## Decoding -/

section Decoding

theorem bigEndianValue_append_singleton (l : List UInt8) (b : UInt8) :
    bigEndianValue (l ++ [b]) = bigEndianValue l * 256 + b.toNat := by
  simp [bigEndianValue, List.foldl_append]

theorem length_bigEndianBytes (len n : ℕ) : (bigEndianBytes len n).length = len := by
  induction len generalizing n with
  | zero => rfl
  | succ k ih => simp [bigEndianBytes, ih]

theorem toNat_ofNat_mod (n : ℕ) : (UInt8.ofNat (n % 256)).toNat = n % 256 := by
  simp [UInt8.ofNat, UInt8.toNat, Fin.ofNat, UInt8.size]

theorem bigEndianValue_bigEndianBytes (len n : ℕ) :
    bigEndianValue (bigEndianBytes len n) = n % 256 ^ len := by
  induction len generalizing n with
  | zero => simp [bigEndianBytes, bigEndianValue, Nat.mod_one]
  | succ k ih =>
    rw [bigEndianBytes, bigEndianValue_append_singleton, ih, toNat_ofNat_mod, pow_succ,
      mul_comm (256 ^ k) 256, Nat.mod_mul]
    ring

theorem bigEndianValue_bigEndianBytes_of_lt (n : ℕ) (h : n < fieldModulus) :
    bigEndianValue (bigEndianBytes 48 n) = n := by
  rw [bigEndianValue_bigEndianBytes]
  exact Nat.mod_eq_of_lt (lt_trans h (by decide))

theorem slice_append_left (a b : List UInt8) (n : ℕ) (ha : a.length = n) :
    slice (a ++ b) 0 n = a := by
  simp [slice, ← ha]

theorem slice_append_right (a b : List UInt8) (lo hi : ℕ) (ha : a.length ≤ lo) :
    slice (a ++ b) lo hi = slice b (lo - a.length) (hi - a.length) := by
  unfold slice
  rw [List.drop_append_eq_append_drop, List.drop_eq_nil_of_le ha, List.nil_append]
  congr 1
  omega

theorem length_slice (b : List UInt8) (lo hi : ℕ) (h : hi ≤ b.length) :
    (slice b lo hi).length = hi - lo := by
  simp [slice]; omega

theorem decodeFieldElement_ok (input : List UInt8) (hlen : input.length = 48)
    (hlt : bigEndianValue input < fieldModulus) :
    decodeFieldElement input = .ok (bigEndianValue input) := by
  simp [decodeFieldElement, hlen, fpBigEndianElement, hlt, wrapError]

theorem decodeFieldElement_error (input : List UInt8)
    (h : input.length ≠ 48 ∨ fieldModulus ≤ bigEndianValue input) :
    ∃ msg, decodeFieldElement input = .error msg := by
  unfold decodeFieldElement
  by_cases hlen : input.length ≠ 48
  · exact ⟨_, if_pos hlen⟩
  · rw [if_neg hlen]
    have hge : ¬ bigEndianValue input < fieldModulus := by
      rcases h with h | h
      · exact absurd h hlen
      · omega
    simp only [fpBigEndianElement, if_neg hge, wrapError]
    exact ⟨_, rfl⟩

/-- With both lengths right and all limbs canonical, `verifyConsensys` runs the on-curve test,
the hash and the pairing check on the points of the encoding contract. -/
theorem verifyConsensysBytes_eq (K : Gnark) (pk sig message : List UInt8)
    (hpk : pk.length = 96) (hsig : sig.length = 192) (hl : limbsCanonical pk sig) :
    verifyConsensysBytes K pk sig message =
      if !K.isOnCurveG1 (contractG1 pk) then .error "public key is not on curve"
      else
        match K.hashToG2 message dst with
        | .panic m => .panic m
        | .error m => .error ("failed to hash message to G2: " ++ m)
        | .ok hashedMsg =>
          (K.pairingCheck [K.g1Generator, contractG1 pk] [contractG2 sig, hashedMsg.Neg]).wrapError
            "failed during pairing check: " := by
  obtain ⟨h1, h2, h3, h4, h5, h6⟩ := hl
  unfold verifyConsensysBytes
  rw [if_neg (by simp [hpk]),
    decodeFieldElement_ok _ (by rw [length_slice _ _ _ (by omega)]) h1,
    decodeFieldElement_ok _ (by rw [length_slice _ _ _ (by omega)]) h2]
  simp only
  by_cases hc : K.isOnCurveG1 (contractG1 pk) = true
  · have hc' : K.isOnCurveG1
        (⟨bigEndianValue (slice pk 0 48), bigEndianValue (slice pk 48 96)⟩ : G1Affine) = true := hc
    rw [hc, hc']
    simp only [Bool.not_true, Bool.false_eq_true, if_false]
    rw [if_neg (by simp [hsig]),
      decodeFieldElement_ok _ (by rw [length_slice _ _ _ (by omega)]) h3,
      decodeFieldElement_ok _ (by rw [length_slice _ _ _ (by omega)]) h4,
      decodeFieldElement_ok _ (by rw [length_slice _ _ _ (by omega)]) h5,
      decodeFieldElement_ok _ (by rw [length_slice _ _ _ (by omega)]) h6]
    rfl
  · have hc2 : K.isOnCurveG1 (contractG1 pk) = false := by simpa using hc
    have hc' : K.isOnCurveG1
        (⟨bigEndianValue (slice pk 0 48), bigEndianValue (slice pk 48 96)⟩ : G1Affine) = false :=
      hc2
    rw [hc2, hc']
    rfl

end Decoding

/-! ## Verification -/

section Verification

variable {G1 G2 GT : Type} [AddCommGroup G1] [Module Fr G1] [AddCommGroup G2] [Module Fr G2]
  [AddCommGroup GT] [Module Fr GT]

theorem length_encodedG1 (x y : ℕ) :
    (bigEndianBytes 48 x ++ bigEndianBytes 48 y).length = 96 := by
  simp [length_bigEndianBytes]

theorem length_encodedG2 (x1 x0 y1 y0 : ℕ) :
    (bigEndianBytes 48 x1 ++ (bigEndianBytes 48 x0 ++
      (bigEndianBytes 48 y1 ++ bigEndianBytes 48 y0))).length = 192 := by
  simp [length_bigEndianBytes]

theorem slice_full (a : List UInt8) (lo hi : ℕ) (hlo : lo = 0) (h : a.length ≤ hi - lo) :
    slice a lo hi = a := by
  subst hlo
  unfold slice
  rw [List.drop_zero, List.take_of_length_le h]

theorem contractG1_encoded (x y : ℕ) (hx : x < fieldModulus) (hy : y < fieldModulus) :
    contractG1 (bigEndianBytes 48 x ++ bigEndianBytes 48 y) = { X := x, Y := y } := by
  have l := length_bigEndianBytes
  unfold contractG1
  rw [slice_append_left _ _ _ (l 48 x),
    slice_append_right _ _ 48 96 (le_of_eq_of_le (l _ _) (by omega)), l,
    slice_full _ _ _ rfl (le_of_eq_of_le (l _ _) (by omega)),
    bigEndianValue_bigEndianBytes_of_lt x hx, bigEndianValue_bigEndianBytes_of_lt y hy]

theorem contractG2_encoded (x1 x0 y1 y0 : ℕ) (hx1 : x1 < fieldModulus) (hx0 : x0 < fieldModulus)
    (hy1 : y1 < fieldModulus) (hy0 : y0 < fieldModulus) :
    contractG2 (bigEndianBytes 48 x1 ++ (bigEndianBytes 48 x0 ++
      (bigEndianBytes 48 y1 ++ bigEndianBytes 48 y0))) =
      { X := { A0 := x0, A1 := x1 }, Y := { A0 := y0, A1 := y1 } } := by
  have l := length_bigEndianBytes
  have le : ∀ (n k : ℕ), 48 ≤ k → (bigEndianBytes 48 n).length ≤ k := fun n k hk =>
    le_of_eq_of_le (l _ _) hk
  unfold contractG2
  rw [slice_append_left _ _ _ (l 48 x1),
    slice_append_right _ _ 48 96 (le _ _ (by omega)), l, slice_append_left _ _ _ (l 48 x0),
    slice_append_right _ _ 96 144 (le _ _ (by omega)), l,
    slice_append_right _ _ (96 - 48) (144 - 48) (le _ _ (by omega)), l,
    slice_append_left _ _ _ (l 48 y1),
    slice_append_right _ _ 144 192 (le _ _ (by omega)), l,
    slice_append_right _ _ (144 - 48) (192 - 48) (le _ _ (by omega)), l,
    slice_append_right _ _ (144 - 48 - 48) (192 - 48 - 48) (le _ _ (by omega)), l,
    slice_full _ _ _ rfl (le _ _ (by omega)),
    bigEndianValue_bigEndianBytes_of_lt x1 hx1, bigEndianValue_bigEndianBytes_of_lt x0 hx0,
    bigEndianValue_bigEndianBytes_of_lt y1 hy1, bigEndianValue_bigEndianBytes_of_lt y0 hy0]

/-- Under the agreement of the libraries, a non-trivial signature that satisfies the pairing
equation for a non-trivial public key is accepted by both backends. -/
theorem VerifySignature_accepts {H : Herumi G1 G2} {K : Gnark} (I : Interop H K GT)
    (ss : SignatureScheme G1) (message : List UInt8) (S : G2) (hS : S ≠ 0)
    (hPK : ss.GroupPublicKey ≠ 0)
    (heq : I.pairing H.generator S = I.pairing ss.GroupPublicKey (H.hashToCurve message)) :
    VerifySignature H K ss message S =
      .ok { HerumiVerification := true, ConsensysVerification := true, IsValid := true } := by
  obtain ⟨hx, hy⟩ := I.affineG1_lt ss.GroupPublicKey
  obtain ⟨hx1, hx0, hy1, hy0⟩ := I.affineG2_lt S
  have hc1 := contractG1_encoded _ _ hx hy
  have hc2 := contractG2_encoded _ _ _ _ hx1 hx0 hy1 hy0
  obtain ⟨b, hb, hbt⟩ := I.pairingCheck_eq H.generator ss.GroupPublicKey S (H.hashToCurve message)
  have hbtrue : b = true := hbt.2 heq
  have hcons : verifyConsensys H K ss message S = .ok true := by
    unfold verifyConsensys
    simp only
    rw [I.serializePublicKey_eq _ hPK, I.serializeSign_eq _ hS,
      verifyConsensysBytes_eq K _ _ _ (length_encodedG1 _ _) (length_encodedG2 _ _ _ _)
        (by
          unfold limbsCanonical
          rw [hc1, hc2]
          exact ⟨hx, hy, hx1, hx0, hy1, hy0⟩),
      hc1, hc2]
    have hon := I.isOnCurveG1_affineG1 _ hPK
    rw [show ({ X := (I.affineG1 ss.GroupPublicKey).X, Y := (I.affineG1 ss.GroupPublicKey).Y }
        : G1Affine) = I.affineG1 ss.GroupPublicKey from rfl,
      show ({ X := { A0 := (I.affineG2 S).X.A0, A1 := (I.affineG2 S).X.A1 },
              Y := { A0 := (I.affineG2 S).Y.A0, A1 := (I.affineG2 S).Y.A1 } } : G2Affine)
        = I.affineG2 S from rfl,
      hon, I.hashToG2_eq, I.g1Generator_eq]
    simp only [Bool.not_true, Bool.false_eq_true, if_false]
    rw [hb, hbtrue]
    rfl
  unfold VerifySignature
  simp only [hcons, I.verifyByte_complete S _ message hS hPK heq, Bool.and_self]

end Verification

/-! ## The scalar instance satisfies the agreement -/

section ScalarInstance

theorem fpNeg_one_ne_one : fpNeg 1 ≠ 1 := by decide

theorem zero_lt_fieldModulus : 0 < fieldModulus := by decide

theorem one_lt_fieldModulus : 1 < fieldModulus := by decide

theorem scalarPairingSum_pair (P Q R T : Fr) :
    scalarPairingSum [scalarAffineG1 P, scalarAffineG1 Q]
      [scalarAffineG2 R, (scalarAffineG2 T).Neg] = P * R - Q * T := by
  simp only [scalarPairingSum, scalarAffineG1, scalarAffineG2, G2Affine.Neg, if_true,
    if_neg fpNeg_one_ne_one, ZMod.natCast_zmod_val]
  ring

/-- The scalar instance: the pairing is the product of scalars. -/
def scalarInterop : Interop scalarHerumi scalarGnark Fr :=
  { pairing := LinearMap.mul Fr Fr
    affineG1 := scalarAffineG1
    affineG2 := scalarAffineG2
    generator_ne_zero := by decide
    verifyByte_complete := by
      intro S PK m hS hPK h
      have h' : S = PK * scalarHash m := by simpa [scalarHerumi] using h
      simp only [scalarHerumi, decide_eq_true_eq]
      exact ⟨hS, hPK, h'⟩
    serializePublicKey_eq := fun _ _ => rfl
    affineG1_lt := fun P =>
      ⟨lt_trans (ZMod.val_lt P) (by decide), one_lt_fieldModulus⟩
    isOnCurveG1_affineG1 := fun _ _ => rfl
    serializeSign_eq := fun _ _ => rfl
    affineG2_lt := fun S =>
      ⟨zero_lt_fieldModulus, lt_trans (ZMod.val_lt S) (by decide), zero_lt_fieldModulus,
        one_lt_fieldModulus⟩
    g1Generator_eq := rfl
    hashToG2_eq := fun _ => rfl
    pairingCheck_eq := by
      intro P Q R T
      refine ⟨decide (scalarPairingSum [scalarAffineG1 P, scalarAffineG1 Q]
        [scalarAffineG2 R, (scalarAffineG2 T).Neg] = 0), ?_, ?_⟩
      · simp [scalarGnark]
      · rw [decide_eq_true_eq, scalarPairingSum_pair, sub_eq_zero]
        rfl }

end ScalarInstance

/-! ## Claims: signing and verification -/

section SigningClaims

variable {G1 G2 GT : Type} [AddCommGroup G1] [Module Fr G1] [AddCommGroup G2] [Module Fr G2]
  [AddCommGroup GT] [Module Fr GT]

/-- C1. For a scheme returned by `NewSignatureScheme(t, n)` with `1 <= t <= n`, a message and
two lists `A`, `B` of pairwise distinct node indices in `[1, n]`, each of length at least `t`
(in any order, possibly longer than `t`), `Sign` succeeds on both and returns the same group
signature: the Lagrange interpolation at zero of the partial signatures
`f(i) * HashToCurve(m)`, which equals `masterSecret * HashToCurve(m)`. -/
theorem sign_reconstruction_consistent (H : Herumi G1 G2) (rng : ℕ → Fr) (t n : Int)
    (ss : SignatureScheme G1) (message : List UInt8) (A B : List Int)
    (h1 : 1 ≤ t) (h2 : t ≤ n) (hn : n ≤ maxInt)
    (hss : NewSignatureScheme H rng t n = .ok ss)
    (hA : A.Nodup) (hAr : ∀ a ∈ A, 1 ≤ a ∧ a ≤ n) (hAl : t ≤ (A.length : Int))
    (hB : B.Nodup) (hBr : ∀ b ∈ B, 1 ≤ b ∧ b ≤ n) (hBl : t ≤ (B.length : Int)) :
    ∃ S : G2, Sign H ss message A = .ok S ∧ Sign H ss message B = .ok S ∧
      S = interpolateAtZero (A.map fun (a : Int) => ((a : Int) : Fr))
        (A.map fun (a : Int) =>
          signByte H (evaluatePolynomial (secretPolynomial rng t) ((a : Int) : Fr)) message) ∧
      S = interpolateAtZero (B.map fun (b : Int) => ((b : Int) : Fr))
        (B.map fun (b : Int) =>
          signByte H (evaluatePolynomial (secretPolynomial rng t) ((b : Int) : Fr)) message) ∧
      S = rng 0 • H.hashToCurve message := by
  obtain ⟨rfl, -, -, -⟩ := NewSignatureScheme_inv H rng t n ss h1 hss
  obtain ⟨hSA, hIA⟩ := Sign_expectedScheme H rng t n h1 hn message A hA hAr hAl
  obtain ⟨hSB, hIB⟩ := Sign_expectedScheme H rng t n h1 hn message B hB hBr hBl
  refine ⟨rng 0 • H.hashToCurve message, ?_, ?_, hIA.symm, hIB.symm, rfl⟩
  · rw [hSA, hIA]
  · rw [hSB, hIB]

/-- C2. For a scheme returned by `NewSignatureScheme(t, n)` with `1 <= t <= n`, a message `m`
whose hash is not the identity and a list of pairwise distinct indices in `[1, n]` of length at
least `t`, `Sign` returns a signature `S` and `VerifySignature(m, S)` returns, without error, a
result whose two backend verdicts and `IsValid` are all true, given that the two libraries
agree as `Interop` states. -/
theorem signed_message_verifies {H : Herumi G1 G2} {K : Gnark} (I : Interop H K GT)
    (rng : ℕ → Fr) (t n : Int) (ss : SignatureScheme G1) (message : List UInt8) (A : List Int)
    (h1 : 1 ≤ t) (h2 : t ≤ n) (hn : n ≤ maxInt)
    (hss : NewSignatureScheme H rng t n = .ok ss)
    (hA : A.Nodup) (hAr : ∀ a ∈ A, 1 ≤ a ∧ a ≤ n) (hAl : t ≤ (A.length : Int))
    (hm : H.hashToCurve message ≠ 0) :
    ∃ S : G2, Sign H ss message A = .ok S ∧
      VerifySignature H K ss message S =
        .ok { HerumiVerification := true, ConsensysVerification := true, IsValid := true } := by
  obtain ⟨rfl, -, -, hms⟩ := NewSignatureScheme_inv H rng t n ss h1 hss
  obtain ⟨hSA, hIA⟩ := Sign_expectedScheme H rng t n h1 hn message A hA hAr hAl
  refine ⟨rng 0 • H.hashToCurve message, by rw [hSA, hIA], ?_⟩
  refine VerifySignature_accepts I _ message _ (smul_ne_zero hms hm)
    (smul_ne_zero hms I.generator_ne_zero) ?_
  simp only [expectedScheme, getPublicKey, map_smul, LinearMap.smul_apply]

end SigningClaims

theorem scalarHash_hello_ne_zero : scalarHerumi.hashToCurve helloMessage ≠ 0 := by decide

/-- C1 at `t = 2`, `n = 3`, the message `hello` and the index lists `[1, 3]` and `[3, 2, 1]`
in the scalar instance. -/
theorem sign_reconstruction_consistent_witness :
    ∃ S : Fr, Sign scalarHerumi (expectedScheme scalarHerumi exampleRng 2 3) helloMessage [1, 3]
        = .ok S ∧
      Sign scalarHerumi (expectedScheme scalarHerumi exampleRng 2 3) helloMessage [3, 2, 1]
        = .ok S ∧
      S = interpolateAtZero ([1, 3].map fun (a : Int) => ((a : Int) : Fr))
        ([1, 3].map fun (a : Int) => signByte scalarHerumi
          (evaluatePolynomial (secretPolynomial exampleRng 2) ((a : Int) : Fr)) helloMessage) ∧
      S = interpolateAtZero ([3, 2, 1].map fun (b : Int) => ((b : Int) : Fr))
        ([3, 2, 1].map fun (b : Int) => signByte scalarHerumi
          (evaluatePolynomial (secretPolynomial exampleRng 2) ((b : Int) : Fr)) helloMessage) ∧
      S = exampleRng 0 • scalarHerumi.hashToCurve helloMessage :=
  sign_reconstruction_consistent scalarHerumi exampleRng 2 3 _ helloMessage [1, 3] [3, 2, 1]
    (by decide) (by decide) (by decide)
    (NewSignatureScheme_ok scalarHerumi exampleRng 2 3 (by decide) (by decide) (by decide)
      (by decide) (by decide))
    (by decide) (by decide) (by decide) (by decide) (by decide) (by decide)

/-- C2 at `t = 2`, `n = 3`, the message `hello` and the index list `[3, 1]` in the scalar
instance. -/
theorem signed_message_verifies_witness :
    ∃ S : Fr, Sign scalarHerumi (expectedScheme scalarHerumi exampleRng 2 3) helloMessage [3, 1]
        = .ok S ∧
      VerifySignature scalarHerumi scalarGnark (expectedScheme scalarHerumi exampleRng 2 3)
        helloMessage S =
        .ok { HerumiVerification := true, ConsensysVerification := true, IsValid := true } :=
  signed_message_verifies scalarInterop exampleRng 2 3 _ helloMessage [3, 1]
    (by decide) (by decide) (by decide)
    (NewSignatureScheme_ok scalarHerumi exampleRng 2 3 (by decide) (by decide) (by decide)
      (by decide) (by decide))
    (by decide) (by decide) (by decide) scalarHash_hello_ne_zero

/-! ## Claims: parameters, errors and results -/

section SchemeClaims

variable {G1 G2 : Type} [AddCommGroup G1] [Module Fr G1] [AddCommGroup G2] [Module Fr G2]

/-- C3. For every scheme, message and list of signing nodes shorter than `Params.Threshold`,
`Sign` returns an error and no signature, whatever indices the list holds. -/
theorem sign_insufficient_nodes_error (H : Herumi G1 G2) (ss : SignatureScheme G1)
    (message : List UInt8) (signingNodes : List Int)
    (hlen : (signingNodes.length : Int) < ss.Params.Threshold) :
    Sign H ss message signingNodes = .error "not enough signing nodes" ∧
      ∀ S : G2, Sign H ss message signingNodes ≠ .ok S := by
  have h : Sign H ss message signingNodes = .error "not enough signing nodes" := by
    unfold Sign
    rw [if_pos hlen]
  refine ⟨h, fun S hS => ?_⟩
  rw [h] at hS
  cases hS

/-- C4, at the failing inputs: with `threshold = 0` (and with `threshold = -1`) and
`totalNodes = 3` the guard of `NewSignatureScheme` lets the call through and it panics,
returning neither an error nor a scheme: on the draws `5, 6, ...` inside `GetMasterSecretKey`,
on `msk[0]` of an empty slice (in `make` for the negative threshold); for
`threshold > totalNodes` an error is returned. -/
theorem newSignatureScheme_low_threshold_panics (H : Herumi G1 G2) (rng : ℕ → Fr) :
    (∃ msg, NewSignatureScheme H rng 0 3 = .panic msg) ∧
      (∃ msg, NewSignatureScheme H rng (-1) 3 = .panic msg) ∧
      NewSignatureScheme H exampleRng 0 3 = .panic "index out of range [0] with length 0" ∧
      NewSignatureScheme H exampleRng (-1) 3 = .panic "makeslice: len out of range" ∧
      NewSignatureScheme H rng 4 3 = .error "threshold cannot be greater than total nodes" := by
  have h5 : exampleRng 0 ≠ 0 := by decide
  have key : ∀ t : Int, t < 1 → t ≤ 3 → ∃ msg, NewSignatureScheme H rng t 3 = .panic msg := by
    intro t ht ht3
    unfold NewSignatureScheme
    rw [if_neg (by omega)]
    by_cases h0 : rng 0 = 0
    · rw [h0, setByCSPRNG_zero]
      exact ⟨_, rfl⟩
    · rw [setByCSPRNG_ok _ h0]
      obtain ⟨m, hm⟩ := getMasterSecretKey_not_ok (rng 0) t rng (Or.inl ht)
      simp only [hm]
      exact ⟨_, rfl⟩
  refine ⟨key 0 (by decide) (by decide), key (-1) (by decide) (by decide), ?_, ?_, ?_⟩
  · simp [NewSignatureScheme, setByCSPRNG_ok _ h5, getMasterSecretKey, maxAlloc_eq]
  · simp [NewSignatureScheme, setByCSPRNG_ok _ h5, getMasterSecretKey, maxAlloc_eq]
  · simp [NewSignatureScheme]

/-- C5, as amended: for `1 <= t <= n` such that the two slices can be allocated (`32 * t`
and `8 * n` bytes within `maxAlloc`) and draws of the entropy source that are not zero,
`NewSignatureScheme(t, n)` succeeds and returns a scheme with `Params = {t, n}` and exactly
`n` nodes, the node at position `i` (0-based) having `Index = i + 1`, so that the node indices
are `1, ..., n` without repetition. -/
theorem newSignatureScheme_nodes (H : Herumi G1 G2) (rng : ℕ → Fr) (t n : Int)
    (h1 : 1 ≤ t) (h2 : t ≤ n) (ht : 32 * t ≤ maxAlloc) (hn : 8 * n ≤ maxAlloc)
    (hdraw : ∀ i : ℕ, i < t.toNat → rng i ≠ 0) :
    ∃ ss : SignatureScheme G1, NewSignatureScheme H rng t n = .ok ss ∧
      ss.Params = { Threshold := t, TotalNodes := n } ∧
      (ss.Nodes.length : Int) = n ∧
      (∀ i : ℕ, i < ss.Nodes.length → (ss.Nodes.get? i).map Node.Index = some ((i : Int) + 1)) ∧
      ss.Nodes.map Node.Index = (List.range n.toNat).map (fun (i : ℕ) => (i : Int) + 1) ∧
      (ss.Nodes.map Node.Index).Nodup := by
  have hmap : ((expectedScheme H rng t n).Nodes.map Node.Index)
      = (List.range n.toNat).map (fun (i : ℕ) => (i : Int) + 1) := by
    simp only [expectedScheme, List.map_map]
    rfl
  refine ⟨expectedScheme H rng t n, NewSignatureScheme_ok H rng t n h1 h2 ht hn hdraw, rfl, ?_,
    ?_, hmap, ?_⟩
  · simp only [expectedScheme, List.length_map, List.length_range]
    omega
  · intro i hi
    have hi' : i < n.toNat := by
      simpa only [expectedScheme, List.length_map, List.length_range] using hi
    simp only [expectedScheme, List.get?_eq_getElem?, List.getElem?_map,
      List.getElem?_range hi', Option.map_some', expectedNode]
  · rw [hmap]
    refine List.Nodup.map ?_ (List.nodup_range _)
    intro a b hab
    have : (a : Int) + 1 = (b : Int) + 1 := hab
    omega

/-- C9, as amended: the scheme returned by `NewSignatureScheme` retains the secret polynomial;
its field `MasterSecretKeys` holds the `threshold` coefficients, the master secret first, from
which the group public key is derived. -/
theorem newSignatureScheme_retains_polynomial (H : Herumi G1 G2) (rng : ℕ → Fr) (t n : Int)
    (ss : SignatureScheme G1) (h1 : 1 ≤ t) (h2 : t ≤ n) (hn : n ≤ maxInt)
    (hss : NewSignatureScheme H rng t n = .ok ss) :
    ss.MasterSecretKeys = secretPolynomial rng t ∧
      (ss.MasterSecretKeys.length : Int) = t ∧
      ss.MasterSecretKeys.head? = some (rng 0) ∧
      ss.GroupPublicKey = getPublicKey H (rng 0) := by
  obtain ⟨rfl, -, -, -⟩ := NewSignatureScheme_inv H rng t n ss h1 hss
  refine ⟨rfl, ?_, rfl, rfl⟩
  simp only [expectedScheme, secretPolynomial, List.length_cons, List.length_map,
    List.length_range]
  omega

end SchemeClaims

section ResultClaims

variable {G1 G2 : Type}

/-- C6. Whenever `VerifySignature` returns a result, its `IsValid` field is the conjunction of
`HerumiVerification` and `ConsensysVerification`; `IsValid` is true only if both are. -/
theorem verifySignature_isValid_conjunction (H : Herumi G1 G2) (K : Gnark)
    (ss : SignatureScheme G1) (message : List UInt8) (signature : G2)
    (res : VerificationResult) (hres : VerifySignature H K ss message signature = .ok res) :
    res.IsValid = (res.HerumiVerification && res.ConsensysVerification) ∧
      (res.IsValid = true → res.HerumiVerification = true ∧ res.ConsensysVerification = true) := by
  unfold VerifySignature at hres
  have key : res.IsValid = (res.HerumiVerification && res.ConsensysVerification) := by
    cases hc : verifyConsensys H K ss message signature with
    | ok c =>
      rw [hc] at hres
      cases hres
      rfl
    | error m => rw [hc] at hres; cases hres
    | panic m => rw [hc] at hres; cases hres
  refine ⟨key, fun hv => ?_⟩
  rw [key, Bool.and_eq_true] at hv
  exact hv

end ResultClaims

/-! ## Claims: the ConsenSys backend -/

section ConsensysClaims

theorem length_offCurveSigBytes : offCurveSigBytes.length = 192 :=
  length_encodedG2 0 1 0 1

theorem contractG2_offCurveSigBytes :
    contractG2 offCurveSigBytes = { X := { A0 := 1, A1 := 0 }, Y := { A0 := 1, A1 := 0 } } :=
  contractG2_encoded 0 1 0 1 zero_lt_fieldModulus one_lt_fieldModulus zero_lt_fieldModulus
    one_lt_fieldModulus

/-- C7, at the failing input: the 192-byte signature encoding with limbs `0, 1, 0, 1` decodes
to the point `X = 1, Y = 1`, which does not satisfy the G2 curve equation, and
`verifyConsensys` still hands it to the pairing check and returns its verdict `v` instead of an
error, for any well-formed public key that passes the G1 on-curve test. -/
theorem verifyConsensys_skips_signature_curve_check (K : Gnark) (pk message : List UInt8)
    (hashedMsg : G2Affine) (v : Bool) (hpk : pk.length = 96)
    (hx : (contractG1 pk).X < fieldModulus) (hy : (contractG1 pk).Y < fieldModulus)
    (hon : K.isOnCurveG1 (contractG1 pk) = true)
    (hh : K.hashToG2 message dst = .ok hashedMsg)
    (hp : K.pairingCheck [K.g1Generator, contractG1 pk]
      [contractG2 offCurveSigBytes, hashedMsg.Neg] = .ok v) :
    g2CurveEquation (contractG2 offCurveSigBytes) = false ∧
      verifyConsensysBytes K pk offCurveSigBytes message = .ok v := by
  constructor
  · rw [contractG2_offCurveSigBytes]
    decide
  · have hl : limbsCanonical pk offCurveSigBytes := by
      unfold limbsCanonical
      rw [contractG2_offCurveSigBytes]
      exact ⟨hx, hy, zero_lt_fieldModulus, one_lt_fieldModulus, zero_lt_fieldModulus,
        one_lt_fieldModulus⟩
    rw [verifyConsensysBytes_eq K pk _ message hpk length_offCurveSigBytes hl, hon]
    simp only [Bool.not_true, Bool.false_eq_true, if_false, hh, hp]
    rfl

theorem verifyConsensysBytes_error_of_not_canonical (K : Gnark) (pk sig message : List UInt8)
    (hpk : pk.length = 96) (hsig : sig.length = 192) (hl : ¬ limbsCanonical pk sig) :
    ∃ msg, verifyConsensysBytes K pk sig message = .error msg := by
  have len : ∀ (b : List UInt8) (lo hi : ℕ), hi ≤ b.length → hi - lo = 48 →
      (slice b lo hi).length = 48 := fun b lo hi h h' => by rw [length_slice b lo hi h, h']
  unfold verifyConsensysBytes
  rw [if_neg (by simp [hpk])]
  by_cases h1 : (contractG1 pk).X < fieldModulus
  swap
  · obtain ⟨e, he⟩ := decodeFieldElement_error (slice pk 0 48) (Or.inr (not_lt.1 h1))
    rw [he]
    exact ⟨_, rfl⟩
  rw [decodeFieldElement_ok _ (len _ _ _ (by omega) rfl) h1]
  by_cases h2 : (contractG1 pk).Y < fieldModulus
  swap
  · obtain ⟨e, he⟩ := decodeFieldElement_error (slice pk 48 96) (Or.inr (not_lt.1 h2))
    rw [he]
    exact ⟨_, rfl⟩
  rw [decodeFieldElement_ok _ (len _ _ _ (by omega) rfl) h2]
  simp only
  split
  · exact ⟨_, rfl⟩
  rw [if_neg (by simp [hsig])]
  by_cases h3 : (contractG2 sig).X.A1 < fieldModulus
  swap
  · obtain ⟨e, he⟩ := decodeFieldElement_error (slice sig 0 48) (Or.inr (not_lt.1 h3))
    rw [he]
    exact ⟨_, rfl⟩
  rw [decodeFieldElement_ok _ (len _ _ _ (by omega) rfl) h3]
  by_cases h4 : (contractG2 sig).X.A0 < fieldModulus
  swap
  · obtain ⟨e, he⟩ := decodeFieldElement_error (slice sig 48 96) (Or.inr (not_lt.1 h4))
    rw [he]
    exact ⟨_, rfl⟩
  rw [decodeFieldElement_ok _ (len _ _ _ (by omega) rfl) h4]
  by_cases h5 : (contractG2 sig).Y.A1 < fieldModulus
  swap
  · obtain ⟨e, he⟩ := decodeFieldElement_error (slice sig 96 144) (Or.inr (not_lt.1 h5))
    rw [he]
    exact ⟨_, rfl⟩
  rw [decodeFieldElement_ok _ (len _ _ _ (by omega) rfl) h5]
  by_cases h6 : (contractG2 sig).Y.A0 < fieldModulus
  swap
  · obtain ⟨e, he⟩ := decodeFieldElement_error (slice sig 144 192) (Or.inr (not_lt.1 h6))
    rw [he]
    exact ⟨_, rfl⟩
  exact absurd ⟨h1, h2, h3, h4, h5, h6⟩ hl

/-- C8. `decodeFieldElement` returns the big-endian value of a 48-byte limb below the field
modulus and an error for any other input; on a 96-byte public key and a 192-byte signature
`verifyConsensys` works on the G1 point with `X` from bytes `[0, 48)` and `Y` from bytes
`[48, 96)` and on the G2 point with `X.A1`, `X.A0`, `Y.A1`, `Y.A0` from bytes `[0, 48)`,
`[48, 96)`, `[96, 144)`, `[144, 192)`, and returns an error when some limb is not canonical. -/
theorem verifyConsensys_decoding_contract (K : Gnark) (pk sig message input : List UInt8)
    (hpk : pk.length = 96) (hsig : sig.length = 192) :
    decodeFieldElement input =
        (if input.length ≠ 48 then .error "input length must be 48 bytes"
         else if bigEndianValue input < fieldModulus then .ok (bigEndianValue input)
         else .error "failed to decode field element: invalid fp.Element encoding") ∧
      (limbsCanonical pk sig →
        verifyConsensysBytes K pk sig message =
          if !K.isOnCurveG1 (contractG1 pk) then .error "public key is not on curve"
          else
            match K.hashToG2 message dst with
            | .panic m => .panic m
            | .error m => .error ("failed to hash message to G2: " ++ m)
            | .ok hashedMsg =>
              (K.pairingCheck [K.g1Generator, contractG1 pk]
                [contractG2 sig, hashedMsg.Neg]).wrapError "failed during pairing check: ") ∧
      (¬ limbsCanonical pk sig → ∃ msg, verifyConsensysBytes K pk sig message = .error msg) := by
  refine ⟨?_, verifyConsensysBytes_eq K pk sig message hpk hsig,
    verifyConsensysBytes_error_of_not_canonical K pk sig message hpk hsig⟩
  unfold decodeFieldElement fpBigEndianElement
  by_cases hlen : input.length ≠ 48
  · rw [if_pos hlen, if_pos hlen]
  · rw [if_neg hlen, if_neg hlen]
    by_cases hlt : bigEndianValue input < fieldModulus
    · rw [if_pos hlt, if_pos hlt]; rfl
    · rw [if_neg hlt, if_neg hlt]; rfl

end ConsensysClaims

/-! ## The claims at concrete inputs -/

section Examples

theorem val_lt_fieldModulus (P : Fr) : P.val < fieldModulus :=
  lt_trans (ZMod.val_lt P) (by decide)

theorem scalarGnark_check (message : List UInt8) (P S : Fr) :
    (if !scalarGnark.isOnCurveG1 (scalarAffineG1 P) then
        (.error "public key is not on curve" : Outcome Bool)
      else
        match scalarGnark.hashToG2 message dst with
        | .panic m => .panic m
        | .error m => .error ("failed to hash message to G2: " ++ m)
        | .ok hashedMsg =>
          (scalarGnark.pairingCheck [scalarGnark.g1Generator, scalarAffineG1 P]
            [scalarAffineG2 S, hashedMsg.Neg]).wrapError "failed during pairing check: ")
      = .ok (decide (1 * S - P * scalarHash message = 0)) := by
  have hsum := scalarPairingSum_pair 1 P S (scalarHash message)
  simp only [scalarGnark, Bool.not_true, Bool.false_eq_true, if_false, wrapError,
    List.length_cons, List.length_nil]
  rw [if_neg (by simp), hsum]

theorem verifyConsensys_scalarGnark (ss : SignatureScheme Fr) (message : List UInt8) (S : Fr) :
    verifyConsensys scalarHerumi scalarGnark ss message S =
      .ok (decide (1 * S - ss.GroupPublicKey * scalarHash message = 0)) := by
  have hx : (scalarAffineG1 ss.GroupPublicKey).X < fieldModulus :=
    val_lt_fieldModulus _
  have hy : (scalarAffineG1 ss.GroupPublicKey).Y < fieldModulus := one_lt_fieldModulus
  have hx1 : (scalarAffineG2 S).X.A1 < fieldModulus := zero_lt_fieldModulus
  have hx0 : (scalarAffineG2 S).X.A0 < fieldModulus := val_lt_fieldModulus _
  have hy1 : (scalarAffineG2 S).Y.A1 < fieldModulus := zero_lt_fieldModulus
  have hy0 : (scalarAffineG2 S).Y.A0 < fieldModulus := one_lt_fieldModulus
  have hc1 := contractG1_encoded _ _ hx hy
  have hc2 := contractG2_encoded _ _ _ _ hx1 hx0 hy1 hy0
  unfold verifyConsensys
  simp only [scalarHerumi]
  rw [verifyConsensysBytes_eq scalarGnark _ _ _ (length_encodedG1 _ _)
      (length_encodedG2 _ _ _ _)
      (by
        unfold limbsCanonical
        rw [hc1, hc2]
        exact ⟨hx, hy, hx1, hx0, hy1, hy0⟩),
    hc1, hc2]
  exact scalarGnark_check message ss.GroupPublicKey S

theorem contractG1_scalarPublicKey (P : Fr) :
    contractG1 (scalarHerumi.serializePublicKey P) = scalarAffineG1 P :=
  contractG1_encoded (scalarAffineG1 P).X (scalarAffineG1 P).Y (val_lt_fieldModulus P)
    one_lt_fieldModulus

theorem verifySignature_scalar_example :
    VerifySignature scalarHerumi scalarGnark (expectedScheme scalarHerumi exampleRng 2 3)
      helloMessage 1 =
      .ok { HerumiVerification := false, ConsensysVerification := false, IsValid := false } := by
  have hc : verifyConsensys scalarHerumi scalarGnark (expectedScheme scalarHerumi exampleRng 2 3)
      helloMessage 1 = .ok false := by
    rw [verifyConsensys_scalarGnark]
    congr 1
  have hh : scalarHerumi.verifyByte 1 (expectedScheme scalarHerumi exampleRng 2 3).GroupPublicKey
      helloMessage = false := by decide
  unfold VerifySignature
  simp only [hc, hh]
  rfl

/-- C3 at `t = 3`, `n = 5` and the two signing nodes `[1, 2]`. -/
theorem sign_insufficient_nodes_error_witness :
    Sign scalarHerumi (expectedScheme scalarHerumi exampleRng 3 5) helloMessage [1, 2]
        = .error "not enough signing nodes" ∧
      ∀ S : Fr, Sign scalarHerumi (expectedScheme scalarHerumi exampleRng 3 5) helloMessage [1, 2]
        ≠ .ok S :=
  sign_insufficient_nodes_error scalarHerumi (expectedScheme scalarHerumi exampleRng 3 5)
    helloMessage [1, 2] (by decide)

/-- C5 fails on the code: with `threshold = 1` and `totalNodes = 2 ^ 62` the slice of nodes
cannot be allocated and `make` panics; with `threshold = 2`, `totalNodes = 3` and an entropy
source that yields zero, `SetByCSPRNG` panics. -/
theorem newSignatureScheme_panics_example :
    NewSignatureScheme scalarHerumi exampleRng 1 (2 ^ 62) = .panic "makeslice: len out of range" ∧
      NewSignatureScheme scalarHerumi (fun _ => 0) 2 3
        = .panic "err blsSecretKeySetByCSPRNG zero" := by
  have h5 : exampleRng 0 ≠ 0 := by decide
  constructor
  · unfold NewSignatureScheme
    rw [if_neg (by decide), setByCSPRNG_ok _ h5]
    simp only [getMasterSecretKey_ok (exampleRng 0) 1 exampleRng (by decide) (by decide)
      (by decide)]
    rw [if_pos (by decide)]
  · unfold NewSignatureScheme
    rw [if_neg (by decide), setByCSPRNG_zero]

/-- C5 as amended, at `t = 3`, `n = 5` and the draws `5, 6, 7`. -/
theorem newSignatureScheme_nodes_witness :
    ∃ ss : SignatureScheme Fr, NewSignatureScheme scalarHerumi exampleRng 3 5 = .ok ss ∧
      ss.Params = { Threshold := 3, TotalNodes := 5 } ∧
      (ss.Nodes.length : Int) = 5 ∧
      (∀ i : ℕ, i < ss.Nodes.length → (ss.Nodes.get? i).map Node.Index = some ((i : Int) + 1)) ∧
      ss.Nodes.map Node.Index = (List.range (5 : Int).toNat).map (fun (i : ℕ) => (i : Int) + 1) ∧
      (ss.Nodes.map Node.Index).Nodup :=
  newSignatureScheme_nodes scalarHerumi exampleRng 3 5 (by decide) (by decide) (by decide)
    (by decide) (by decide)

/-- C6 on the result of verifying the signature `1` for the message `hello`. -/
theorem verifySignature_isValid_conjunction_witness :
    (false = (false && false)) ∧ (false = true → false = true ∧ false = true) :=
  verifySignature_isValid_conjunction scalarHerumi scalarGnark
    (expectedScheme scalarHerumi exampleRng 2 3) helloMessage 1
    { HerumiVerification := false, ConsensysVerification := false, IsValid := false }
    verifySignature_scalar_example

/-- C9 fails on the code: the scheme returned for `t = 2`, `n = 3` on the draws `5, 6` holds
the two coefficients `5, 6` of the secret polynomial in its field `MasterSecretKeys`. -/
theorem newSignatureScheme_keeps_coefficients_example :
    ∃ ss : SignatureScheme Fr, NewSignatureScheme scalarHerumi exampleRng 2 3 = .ok ss ∧
      ss.MasterSecretKeys = [5, 6] ∧ secretPolynomial exampleRng 2 = [5, 6] ∧
      ss.MasterSecretKeys ≠ [] :=
  ⟨expectedScheme scalarHerumi exampleRng 2 3,
    NewSignatureScheme_ok scalarHerumi exampleRng 2 3 (by decide) (by decide) (by decide)
      (by decide) (by decide),
    by decide, by decide, by decide⟩

/-- C9 as amended, at `t = 2`, `n = 3`. -/
theorem newSignatureScheme_retains_polynomial_witness :
    (expectedScheme scalarHerumi exampleRng 2 3).MasterSecretKeys = secretPolynomial exampleRng 2 ∧
      ((expectedScheme scalarHerumi exampleRng 2 3).MasterSecretKeys.length : Int) = 2 ∧
      (expectedScheme scalarHerumi exampleRng 2 3).MasterSecretKeys.head?
        = some (exampleRng 0) ∧
      (expectedScheme scalarHerumi exampleRng 2 3).GroupPublicKey
        = getPublicKey scalarHerumi (exampleRng 0) :=
  newSignatureScheme_retains_polynomial scalarHerumi exampleRng 2 3 _ (by decide) (by decide)
    (by decide)
    (NewSignatureScheme_ok scalarHerumi exampleRng 2 3 (by decide) (by decide) (by decide)
      (by decide) (by decide))

/-- C7 at the public key `5` of the scalar instance and the message `hello`. -/
theorem verifyConsensys_skips_signature_curve_check_witness :
    g2CurveEquation (contractG2 offCurveSigBytes) = false ∧
      verifyConsensysBytes scalarGnark (scalarHerumi.serializePublicKey 5) offCurveSigBytes
        helloMessage =
        .ok (decide (scalarPairingSum
          [scalarGnark.g1Generator, contractG1 (scalarHerumi.serializePublicKey 5)]
          [contractG2 offCurveSigBytes, (scalarAffineG2 (scalarHash helloMessage)).Neg] = 0)) :=
  verifyConsensys_skips_signature_curve_check scalarGnark (scalarHerumi.serializePublicKey 5)
    helloMessage (scalarAffineG2 (scalarHash helloMessage)) _ (length_encodedG1 _ _)
    (by rw [contractG1_scalarPublicKey]; exact val_lt_fieldModulus 5)
    (by rw [contractG1_scalarPublicKey]; exact one_lt_fieldModulus)
    rfl rfl rfl

/-- C8 at the public key `5` of the scalar instance, the signature limbs `0, 1, 0, 1` and the
limb of value `1`. -/
theorem verifyConsensys_decoding_contract_witness :
    decodeFieldElement (bigEndianBytes 48 1) =
        (if (bigEndianBytes 48 1).length ≠ 48 then .error "input length must be 48 bytes"
         else if bigEndianValue (bigEndianBytes 48 1) < fieldModulus then
           .ok (bigEndianValue (bigEndianBytes 48 1))
         else .error "failed to decode field element: invalid fp.Element encoding") ∧
      (limbsCanonical (scalarHerumi.serializePublicKey 5) offCurveSigBytes →
        verifyConsensysBytes scalarGnark (scalarHerumi.serializePublicKey 5) offCurveSigBytes
            helloMessage =
          if !scalarGnark.isOnCurveG1 (contractG1 (scalarHerumi.serializePublicKey 5)) then
            .error "public key is not on curve"
          else
            match scalarGnark.hashToG2 helloMessage dst with
            | .panic m => .panic m
            | .error m => .error ("failed to hash message to G2: " ++ m)
            | .ok hashedMsg =>
              (scalarGnark.pairingCheck
                [scalarGnark.g1Generator, contractG1 (scalarHerumi.serializePublicKey 5)]
                [contractG2 offCurveSigBytes, hashedMsg.Neg]).wrapError
                "failed during pairing check: ") ∧
      (¬ limbsCanonical (scalarHerumi.serializePublicKey 5) offCurveSigBytes →
        ∃ msg, verifyConsensysBytes scalarGnark (scalarHerumi.serializePublicKey 5)
          offCurveSigBytes helloMessage = .error msg) :=
  verifyConsensys_decoding_contract scalarGnark (scalarHerumi.serializePublicKey 5)
    offCurveSigBytes helloMessage (bigEndianBytes 48 1) (length_encodedG1 _ _)
    length_offCurveSigBytes

end Examples

end ThresholdBLS
